import Mathlib

/-!
Verification of the pyrobocluster networking core (robocluster/net.py and
robocluster/router.py), as a shallow embedding in Lean 4.

Modelling conventions:
* Python bytes are `List Nat` with entries below 256.
* Python text is modelled per component: at the codec layer a text is the
  list of Unicode code points (`List Nat`); inside structured values and in
  the router layer we use Lean `String` (whose characters are exactly the
  Unicode scalar values).
* JSON numbers are modelled as integers (the repository only exchanges
  integer numerics: ports and structured identifiers); floats are outside
  the model.
* Python exceptions become explicit error values (`PyErr`), so a fallible
  function returns `Except PyErr _`.
* All definitions are executable and use structural recursion (possibly
  with an explicit fuel argument mirroring an easy termination bound), so
  concrete runs reduce inside the kernel.
-/

namespace Robocluster

/-- Python exception classes that the decoding paths of `router.py` can
raise: `ValueError` (raised explicitly by `Message.from_bytes` and
`Message.from_string`), `TypeError` (raised by the interpreter for a
membership test or subscript on an unsupported type), and `KeyError`
(raised by a failing dict subscript). -/
inductive PyErr where
  | valueError (msg : String)
  | typeError (msg : String)
  | keyError (msg : String)
deriving Repr, DecidableEq

/-- JSON values as produced by `json.loads` and consumed by `json.dumps`.
Integer numerals carry their value in `num`. A numeral with a fraction or
an exponent, and the non-standard literals `NaN`, `Infinity` and
`-Infinity` that CPython additionally accepts, produce a Python float;
no code path in the router reads a float's value (membership compares it
only against strings, and subscripting passes it through opaquely), so
the model records a float's presence with the value-erased constructor
`fnum`. Objects are association lists in insertion order; `json.dumps`
writes the fields in this order. -/
inductive JValue where
  | null
  | bool (b : Bool)
  | num (n : Int)
  | str (s : String)
  | arr (elems : List JValue)
  | obj (fields : List (String × JValue))
  | fnum
deriving Repr

/-- Structural (deep) equality of JSON values, mirroring Python `==` on
the results of `json.loads`. Comparison of two floats is not modelled
(their values are erased); no claim compares a float with a float, only
with strings, where Python `==` answers `False` across types. -/
def JValue.beq : JValue → JValue → Bool
  | .null, .null => true
  | .bool a, .bool b => a = b
  | .num a, .num b => a = b
  | .str a, .str b => a = b
  | .arr xs, .arr ys => beqList xs ys
  | .obj xs, .obj ys => beqFields xs ys
  | _, _ => false
where
  beqList : List JValue → List JValue → Bool
    | [], [] => true
    | x :: xs, y :: ys => x.beq y && beqList xs ys
    | _, _ => false
  beqFields : List (String × JValue) → List (String × JValue) → Bool
    | [], [] => true
    | (k, x) :: xs, (l, y) :: ys => k = l && x.beq y && beqFields xs ys
    | _, _ => false

instance : BEq JValue := ⟨JValue.beq⟩

/-- The wire message of `router.py`: `Message(source, type, data)`. The
constructor stores the three payloads unchanged, so the fields may hold any
JSON-representable value. -/
structure Message where
  source : JValue
  type : JValue
  data : JValue
deriving Repr

/-! ### UTF-8 codec

`Message.encode` calls `str.encode()` and `Message.from_bytes` calls
`bytes.decode()`; both default to strict UTF-8. We embed the codec over
code points: `utf8EncodeChar`/`utf8Decode` implement the UTF-8 byte format
with the strict validations CPython performs (reject continuation-byte
leads, overlong forms, surrogates, values above U+10FFFF, truncated
sequences). -/

/-- The Unicode code points of a Lean string. -/
def strCodes (s : String) : List Nat := s.data.map Char.toNat

/-- UTF-8 encoding of one code point (assumed a Unicode scalar value). -/
def utf8EncodeChar (c : Nat) : List Nat :=
  if c < 0x80 then [c]
  else if c < 0x800 then [0xC0 + c / 64, 0x80 + c % 64]
  else if c < 0x10000 then [0xE0 + c / 4096, 0x80 + c / 64 % 64, 0x80 + c % 64]
  else [0xF0 + c / 262144, 0x80 + c / 4096 % 64, 0x80 + c / 64 % 64, 0x80 + c % 64]

/-- UTF-8 encoding of a code-point sequence (`str.encode()`). -/
def utf8Encode (cs : List Nat) : List Nat := cs.flatMap utf8EncodeChar

/-- Decode one UTF-8 sequence from the front of a byte list, with the
strict validations CPython performs; `none` is a decode error. -/
def utf8Chunk : List Nat → Option (Nat × List Nat)
  | [] => none
  | b :: rest =>
    if b < 0x80 then some (b, rest)
    else if b < 0xC2 then none
    else if b < 0xE0 then
      match rest with
      | b1 :: r =>
        if 0x80 ≤ b1 ∧ b1 < 0xC0 then
          some ((b - 0xC0) * 64 + (b1 - 0x80), r)
        else none
      | _ => none
    else if b < 0xF0 then
      match rest with
      | b1 :: b2 :: r =>
        if (0x80 ≤ b1 ∧ b1 < 0xC0) ∧ (0x80 ≤ b2 ∧ b2 < 0xC0) then
          let c := (b - 0xE0) * 4096 + (b1 - 0x80) * 64 + (b2 - 0x80)
          if 0x800 ≤ c ∧ ¬(0xD800 ≤ c ∧ c < 0xE000) then some (c, r) else none
        else none
      | _ => none
    else if b < 0xF5 then
      match rest with
      | b1 :: b2 :: b3 :: r =>
        if (0x80 ≤ b1 ∧ b1 < 0xC0) ∧ (0x80 ≤ b2 ∧ b2 < 0xC0) ∧
            (0x80 ≤ b3 ∧ b3 < 0xC0) then
          let c := (b - 0xF0) * 262144 + (b1 - 0x80) * 4096 +
            (b2 - 0x80) * 64 + (b3 - 0x80)
          if 0x10000 ≤ c ∧ c < 0x110000 then some (c, r) else none
        else none
      | _ => none
    else none

/-- Driver for `utf8Chunk`; the fuel only needs to be at least the number
of bytes, since every chunk consumes at least one byte. -/
def utf8DecodeAux : Nat → List Nat → Option (List Nat)
  | 0, [] => some []
  | 0, _ :: _ => none
  | _ + 1, [] => some []
  | fuel + 1, b :: rest =>
    match utf8Chunk (b :: rest) with
    | some (c, r) => (utf8DecodeAux fuel r).map (c :: ·)
    | none => none

/-- Strict UTF-8 decoding (`bytes.decode()`); `none` models
`UnicodeDecodeError`. -/
def utf8Decode (l : List Nat) : Option (List Nat) := utf8DecodeAux l.length l

theorem utf8Encode_ascii {l : List Nat} (h : ∀ c ∈ l, c < 128) :
    utf8Encode l = l := by
  induction l with
  | nil => rfl
  | cons c t ih =>
    have hc : c < 128 := h c (List.mem_cons_self c t)
    have ht : ∀ x ∈ t, x < 128 := fun x hx => h x (List.mem_cons_of_mem c hx)
    have e1 : utf8EncodeChar c = [c] := by unfold utf8EncodeChar; rw [if_pos hc]
    have e2 : utf8Encode (c :: t) = utf8EncodeChar c ++ utf8Encode t := by
      simp [utf8Encode]
    rw [e2, e1, ih ht]
    rfl

theorem utf8Chunk_ascii (c : Nat) (t : List Nat) (hc : c < 128) :
    utf8Chunk (c :: t) = some (c, t) := by
  simp only [utf8Chunk, if_pos hc]

theorem utf8DecodeAux_ascii {l : List Nat} (h : ∀ c ∈ l, c < 128) :
    ∀ fuel, l.length ≤ fuel → utf8DecodeAux fuel l = some l := by
  induction l with
  | nil => intro fuel _; cases fuel <;> rfl
  | cons c t ih =>
    intro fuel hfuel
    have hc : c < 128 := h c (List.mem_cons_self c t)
    have ht : ∀ x ∈ t, x < 128 := fun x hx => h x (List.mem_cons_of_mem c hx)
    cases fuel with
    | zero => simp at hfuel
    | succ f =>
      have hf : t.length ≤ f := by simp at hfuel; omega
      simp only [utf8DecodeAux, utf8Chunk_ascii c t hc, ih ht f hf, Option.map]

theorem utf8Decode_ascii {l : List Nat} (h : ∀ c ∈ l, c < 128) :
    utf8Decode l = some l :=
  utf8DecodeAux_ascii h l.length (Nat.le_refl _)

/-! ### json.dumps

`Message.to_json` calls `json.dumps` with its defaults: separators
`", "` and `": "`, and `ensure_ascii=True`, so every code point at or
above 128 is written as a `\uXXXX` escape (a surrogate pair for astral
characters) and the output text is pure ASCII. -/

/-- Lowercase hex digit, as produced by the `\uXXXX` formatting. -/
def hexDigitCode (d : Nat) : Nat := if d < 10 then 48 + d else 87 + d

/-- The six-character escape `\uXXXX` of a 16-bit value. -/
def uEscape (n : Nat) : List Nat :=
  [92, 117, hexDigitCode (n / 4096 % 16), hexDigitCode (n / 256 % 16),
    hexDigitCode (n / 16 % 16), hexDigitCode (n % 16)]

/-- The escape of one code point inside a JSON string literal, following
CPython `json.encoder.py_encode_basestring_ascii`: the seven short
escapes, `\u00XX` for the remaining control characters, verbatim printable
ASCII, `\uXXXX` for other BMP characters and a surrogate pair for astral
characters. -/
def escChar (n : Nat) : List Nat :=
  if n = 34 then [92, 34]
  else if n = 92 then [92, 92]
  else if n = 8 then [92, 98]
  else if n = 12 then [92, 102]
  else if n = 10 then [92, 110]
  else if n = 13 then [92, 114]
  else if n = 9 then [92, 116]
  else if n < 32 then uEscape n
  else if n < 128 then [n]
  else if n < 65536 then uEscape n
  else uEscape (55296 + (n - 65536) / 1024) ++ uEscape (56320 + (n - 65536) % 1024)

/-- A JSON string literal. -/
def serString (s : String) : List Nat :=
  (34 :: s.data.flatMap (fun c => escChar c.toNat)) ++ [34]

/-- Decimal digit characters of a natural number, most significant first;
the fuel argument is an upper bound on the recursion depth and any value
above the number itself is sufficient. -/
def natDigitsAux : Nat → Nat → List Nat
  | 0, _ => []
  | fuel + 1, n =>
    if n < 10 then [48 + n]
    else natDigitsAux fuel (n / 10) ++ [48 + n % 10]

/-- Decimal digit characters of a natural number. -/
def natDigits (n : Nat) : List Nat := natDigitsAux (n + 1) n

/-- Decimal text of an integer (`repr` of a Python int). -/
def serInt (i : Int) : List Nat :=
  if i < 0 then 45 :: natDigits i.natAbs else natDigits i.toNat

mutual
/-- `json.dumps` of a value, as the list of code points of the output
text. The value-erased float serializes as the representative numeral
`0.0` (what `json.dumps` prints for the float `0.0`); no claim
serializes a parsed float. -/
def serJ : JValue → List Nat
  | .null => [110, 117, 108, 108]
  | .bool true => [116, 114, 117, 101]
  | .bool false => [102, 97, 108, 115, 101]
  | .num i => serInt i
  | .str s => serString s
  | .arr [] => [91, 93]
  | .arr (x :: t) => (91 :: (serJ x ++ serElemsTail t)) ++ [93]
  | .obj [] => [123, 125]
  | .obj (m :: t) => (123 :: (serMember m ++ serMembersTail t)) ++ [125]
  | .fnum => [48, 46, 48]

/-- The `", elem"` tail segments of a serialized array. -/
def serElemsTail : List JValue → List Nat
  | [] => []
  | x :: t => (44 :: 32 :: serJ x) ++ serElemsTail t

/-- One `"key": value` member of a serialized object. -/
def serMember : String × JValue → List Nat
  | (k, v) => serString k ++ (58 :: 32 :: serJ v)

/-- The `", member"` tail segments of a serialized object. -/
def serMembersTail : List (String × JValue) → List Nat
  | [] => []
  | m :: t => (44 :: 32 :: serMember m) ++ serMembersTail t
end

/-! ### json.loads

A recursive-descent reading of the JSON grammar as accepted by
`json.loads`, over code-point lists. Numerals follow CPython's scanner
regex `(-?(?:0|[1-9]\d+|\d))(\.\d+)?([eE][-+]?\d+)?`: the integer part is
`0` or a nonzero-led digit run (so a leading zero ends the numeral and
the leftover digit fails the document, CPython's "Extra data"); a
fraction or exponent part, and the non-standard literals `NaN`,
`Infinity` and `-Infinity`, produce a float, modelled by the value-erased
`JValue.fnum`. Where CPython's scanner ends a numeral before a stray
`.`/`e` tail (for example `1.e5`) and fails on the leftover, the model
fails the numeral directly; both reject the document. A lone `\uXXXX`
surrogate escape, which CPython would keep as an unpaired surrogate in
the text, is rejected since Lean characters are exactly the Unicode
scalar values; `json.dumps` output never contains one. -/

/-- Whitespace skipping; `json.loads` ignores space, tab, newline and
carriage return between tokens. -/
def skipWs : List Nat → List Nat
  | [] => []
  | c :: r => if c = 32 ∨ c = 9 ∨ c = 10 ∨ c = 13 then skipWs r else c :: r

/-- Consume a run of decimal digits, accumulating their value. -/
def digitsLoop : Nat → List Nat → Nat × List Nat
  | acc, [] => (acc, [])
  | acc, c :: r =>
    if 48 ≤ c ∧ c ≤ 57 then digitsLoop (acc * 10 + (c - 48)) r else (acc, c :: r)

/-- Value of a hex digit character (both cases accepted, as by
`json.loads`). -/
def hexVal (c : Nat) : Option Nat :=
  if 48 ≤ c ∧ c ≤ 57 then some (c - 48)
  else if 97 ≤ c ∧ c ≤ 102 then some (c - 87)
  else if 65 ≤ c ∧ c ≤ 70 then some (c - 55)
  else none

/-- One lexical item inside a JSON string literal: the closing quote, or
one decoded code point. -/
inductive StrTok where
  | close
  | point (n : Nat)

/-- The value of four hex digit characters. -/
def hex4 (a b c d : Nat) : Option Nat :=
  match hexVal a, hexVal b, hexVal c, hexVal d with
  | some x1, some x2, some x3, some x4 =>
    some (((x1 * 16 + x2) * 16 + x3) * 16 + x4)
  | _, _, _, _ => none

/-- Combine a parsed high surrogate with the value of the following
escape, when that value is a low surrogate. -/
def joinSurrogates (n : Nat) : Option Nat → List Nat → Option (StrTok × List Nat)
  | some m, r2 =>
    if 0xDC00 ≤ m ∧ m < 0xE000 then
      some (.point (0x10000 + (n - 0xD800) * 1024 + (m - 0xDC00)), r2)
    else none
  | none, _ => none

/-- After a high surrogate `\uXXXX` escape, a low surrogate escape must
follow; the two combine into one astral code point. -/
def lowSurrogate : Nat → List Nat → Option (StrTok × List Nat)
  | n, 92 :: 117 :: a :: b :: c :: d :: r2 => joinSurrogates n (hex4 a b c d) r2
  | _, _ => none

/-- Interpret the value of a `\uXXXX` escape: a high surrogate expects a
following low surrogate, a lone low surrogate is rejected (see the module
note on unpaired surrogates), anything else is the code point itself. -/
def uValue : Option Nat → List Nat → Option (StrTok × List Nat)
  | some n, r =>
    if 0xD800 ≤ n ∧ n < 0xDC00 then lowSurrogate n r
    else if 0xDC00 ≤ n ∧ n < 0xE000 then none
    else some (.point n, r)
  | none, _ => none

/-- Decode the part of a backslash escape after the backslash. -/
def escChunk : List Nat → Option (StrTok × List Nat)
  | 34 :: r => some (.point 34, r)
  | 92 :: r => some (.point 92, r)
  | 47 :: r => some (.point 47, r)
  | 98 :: r => some (.point 8, r)
  | 102 :: r => some (.point 12, r)
  | 110 :: r => some (.point 10, r)
  | 114 :: r => some (.point 13, r)
  | 116 :: r => some (.point 9, r)
  | 117 :: a :: b :: c :: d :: r => uValue (hex4 a b c d) r
  | _ => none

/-- Decode one item of a JSON string literal body: the closing quote, a
backslash escape (including `\uXXXX` and a surrogate pair), or a verbatim
non-control character. -/
def stringChunk : List Nat → Option (StrTok × List Nat)
  | [] => none
  | c :: rest =>
    if c = 34 then some (.close, rest)
    else if c = 92 then escChunk rest
    else if c < 32 then none
    else some (.point c, rest)

/-- Prepend a decoded code point to a string-body parse result, rejecting
values that are not Unicode scalar values. -/
def charCons (n : Nat) (res : Option (List Char × List Nat)) :
    Option (List Char × List Nat) :=
  if h : n.isValidChar then
    match res with
    | some (cs, r2) => some (Char.ofNatAux n h :: cs, r2)
    | none => none
  else none

/-- Body of a JSON string literal after the opening quote; the fuel only
needs to be at least the number of remaining code points. -/
def parseStringAux : Nat → List Nat → Option (List Char × List Nat)
  | 0, _ => none
  | fuel + 1, s =>
    match stringChunk s with
    | some (.close, r) => some ([], r)
    | some (.point n, r) => charCons n (parseStringAux fuel r)
    | none => none

/-- Wrap a parsed string literal body as a JSON value. -/
def mkStrRes : Option (List Char × List Nat) → Option (JValue × List Nat)
  | some (cs, r) => some (.str (String.mk cs), r)
  | none => none

/-- Wrap parsed array elements as a JSON value. -/
def mkArrRes : Option (List JValue × List Nat) → Option (JValue × List Nat)
  | some (xs, r) => some (.arr xs, r)
  | none => none

/-- Wrap parsed object members as a JSON value. -/
def mkObjRes :
    Option (List (String × JValue) × List Nat) → Option (JValue × List Nat)
  | some (ms, r) => some (.obj ms, r)
  | none => none

/-- Prepend a parsed element to the rest of an element list. -/
def consElemRes (v : JValue) :
    Option (List JValue × List Nat) → Option (List JValue × List Nat)
  | some (xs, r3) => some (v :: xs, r3)
  | none => none

/-- Prepend a parsed member to the rest of a member list. -/
def consMemberRes (k : String) (v : JValue) :
    Option (List (String × JValue) × List Nat) →
      Option (List (String × JValue) × List Nat)
  | some (ms, r5) => some ((k, v) :: ms, r5)
  | none => none

/-- The signed value of a parsed integer numeral. -/
def intVal (neg : Bool) (n : Nat) : Int :=
  if neg then -(n : Int) else (n : Int)

/-- Consume the integer-part digit run starting with the digit `d`:
CPython's number regex matches `0 | [1-9][0-9]*`, so after a leading `0`
no further digits belong to the numeral. -/
def intDigits (d : Nat) (r : List Nat) : Nat × List Nat :=
  if d = 48 then (0, r) else digitsLoop (d - 48) r

/-- After `e`/`E` of an exponent: an optional sign and at least one
digit; the exponent digits are consumed and discarded (they only affect
the float's value). -/
def expTail (r : List Nat) : Option (List Nat) :=
  match r with
  | c :: r2 =>
    if c = 43 ∨ c = 45 then
      match r2 with
      | d :: r3 =>
        if 48 ≤ d ∧ d ≤ 57 then some (digitsLoop (d - 48) r3).2 else none
      | [] => none
    else if 48 ≤ c ∧ c ≤ 57 then some (digitsLoop (c - 48) r2).2
    else none
  | [] => none

/-- Wrap the rest after a well-formed exponent as a float result. -/
def expRes : Option (List Nat) → Option (JValue × List Nat)
  | some r4 => some (.fnum, r4)
  | none => none

/-- After the fraction digits of a numeral: an optional exponent; the
numeral is a float either way. -/
def fracExp : Nat × List Nat → Option (JValue × List Nat)
  | (_, r3) =>
    match r3 with
    | c :: r4 =>
      if c = 101 ∨ c = 69 then expRes (expTail r4)
      else some (.fnum, c :: r4)
    | [] => some (.fnum, [])

/-- After the integer part of a numeral, value `n`, sign `neg`: a
fraction (`.` and at least one digit) or an exponent makes the numeral a
float (`json.loads` calls `parse_float`); otherwise it is an int with
the signed value. -/
def numTail (neg : Bool) (n : Nat) : List Nat → Option (JValue × List Nat)
  | c :: r2 =>
    if c = 46 then
      match r2 with
      | d :: r3 =>
        if 48 ≤ d ∧ d ≤ 57 then fracExp (digitsLoop (d - 48) r3) else none
      | [] => none
    else if c = 101 ∨ c = 69 then expRes (expTail r2)
    else some (.num (intVal neg n), c :: r2)
  | [] => some (.num (intVal neg n), [])

/-- `numTail` applied to the result pair of `intDigits`. -/
def numTailP (neg : Bool) : Nat × List Nat → Option (JValue × List Nat)
  | (n, r) => numTail neg n r

mutual
/-- Parse one JSON value, leading whitespace allowed; returns the value
and the unconsumed input. The fuel bounds the recursion into containers
(`reqV` below computes a sufficient amount). -/
def parseValue : Nat → List Nat → Option (JValue × List Nat)
  | 0, _ => none
  | fuel + 1, s =>
    match skipWs s with
    | [] => none
    | c :: rest =>
      if c = 110 then
        match rest with
        | 117 :: 108 :: 108 :: r => some (.null, r)
        | _ => none
      else if c = 116 then
        match rest with
        | 114 :: 117 :: 101 :: r => some (.bool true, r)
        | _ => none
      else if c = 102 then
        match rest with
        | 97 :: 108 :: 115 :: 101 :: r => some (.bool false, r)
        | _ => none
      else if c = 34 then mkStrRes (parseStringAux rest.length rest)
      else if c = 91 then
        (match skipWs rest with
        | c2 :: r2 =>
          if c2 = 93 then some (.arr [], r2)
          else mkArrRes (parseElems fuel (c2 :: r2))
        | [] => mkArrRes (parseElems fuel []))
      else if c = 123 then
        (match skipWs rest with
        | c2 :: r2 =>
          if c2 = 125 then some (.obj [], r2)
          else mkObjRes (parseMembers fuel (c2 :: r2))
        | [] => mkObjRes (parseMembers fuel []))
      else if c = 45 then
        match rest with
        | d :: r2 =>
          if d = 73 then
            match r2 with
            | 110 :: 102 :: 105 :: 110 :: 105 :: 116 :: 121 :: r3 =>
              some (.fnum, r3)
            | _ => none
          else if 48 ≤ d ∧ d ≤ 57 then numTailP true (intDigits d r2)
          else none
        | [] => none
      else if 48 ≤ c ∧ c ≤ 57 then numTailP false (intDigits c rest)
      else if c = 78 then
        match rest with
        | 97 :: 78 :: r => some (.fnum, r)
        | _ => none
      else if c = 73 then
        match rest with
        | 110 :: 102 :: 105 :: 110 :: 105 :: 116 :: 121 :: r => some (.fnum, r)
        | _ => none
      else none

/-- Parse the elements of a non-empty array up to and including the
closing bracket. -/
def parseElems : Nat → List Nat → Option (List JValue × List Nat)
  | 0, _ => none
  | fuel + 1, s =>
    match parseValue fuel s with
    | some (v, r) =>
      (match skipWs r with
      | 44 :: r2 => consElemRes v (parseElems fuel r2)
      | 93 :: r2 => some ([v], r2)
      | _ => none)
    | none => none

/-- Parse the members of a non-empty object up to and including the
closing brace. -/
def parseMembers : Nat → List Nat → Option (List (String × JValue) × List Nat)
  | 0, _ => none
  | fuel + 1, s =>
    match skipWs s with
    | 34 :: r =>
      match parseStringAux r.length r with
      | some (cs, r1) =>
        (match skipWs r1 with
        | 58 :: r2 =>
          match parseValue fuel r2 with
          | some (v, r3) =>
            (match skipWs r3 with
            | 44 :: r4 => consMemberRes (String.mk cs) v (parseMembers fuel r4)
            | 125 :: r4 => some ([(String.mk cs, v)], r4)
            | _ => none)
          | none => none
        | _ => none)
      | none => none
    | _ => none
end

/-- `json.loads` over a code-point text: parse one document and require
only whitespace after it; `none` models `json.JSONDecodeError`. The
initial fuel `length + 1` is sufficient because every nesting level of a
parsable document consumes at least one code point. -/
def jsonParse (s : List Nat) : Option JValue :=
  match parseValue (s.length + 1) s with
  | some (v, r) => if skipWs r = [] then some v else none
  | none => none

/-! ### Python membership and subscript semantics

`Message.from_string` runs `any(k not in packet for k in (...))` and then
`packet[k]`. The result of `json.loads` can be any JSON value, so the
embedding reproduces what each Python operation does on each shape:
membership is key lookup on a dict, element equality on a list, substring
test on a str, and a `TypeError` on the scalar types; subscripting by a
string succeeds only on a dict. -/

/-- Whether `needle` starts `hay`. -/
def leadsList : List Char → List Char → Bool
  | [], _ => true
  | _ :: _, [] => false
  | a :: t, b :: u => a == b && leadsList t u

/-- Whether `needle` occurs contiguously in `hay` (Python substring
membership `needle in hay`). -/
def subOccurs (needle hay : List Char) : Bool :=
  match hay with
  | [] => needle.isEmpty
  | _ :: t => leadsList needle hay || subOccurs needle t

/-- The string key of the message dict literals. -/
def kSource : String := "source"

/-- The string key of the message dict literals. -/
def kType : String := "type"

/-- The string key of the message dict literals. -/
def kData : String := "data"

/-- Python `k in packet` for a string `k`: key membership on an object,
element equality on an array, substring on a string, `TypeError`
otherwise. -/
def pyContains (packet : JValue) (k : String) : Except PyErr Bool :=
  match packet with
  | .obj fields => .ok (fields.any (fun f => f.1 == k))
  | .arr xs => .ok (xs.any (fun x => x == .str k))
  | .str s => .ok (subOccurs k.data s.data)
  | _ => .error (.typeError ("argument is not iterable"))

/-- Python `packet[k]` for a string `k`: dict lookup (last binding wins,
as duplicate keys in `json.loads` overwrite) on an object, `KeyError` on a
missing key, `TypeError` on every other shape. -/
def pyGetItem (packet : JValue) (k : String) : Except PyErr JValue :=
  match packet with
  | .obj fields =>
    match fields.reverse.find? (fun f => f.1 == k) with
    | some f => .ok f.2
    | none => .error (.keyError k)
  | .arr _ => .error (.typeError ("list indices must be integers"))
  | .str _ => .error (.typeError ("string indices must be integers"))
  | _ => .error (.typeError ("object is not subscriptable"))

/-! ### The Message codec (router.py, `Message`) -/

/-- The dict literal built by `Message.to_json`. -/
def packetOf (m : Message) : JValue :=
  .obj [(kSource, m.source), (kType, m.type), (kData, m.data)]

/-- `Message.to_json`: `json.dumps` of the three-field dict, as the code
points of the output text. -/
def Message.to_json (m : Message) : List Nat := serJ (packetOf m)

/-- `Message.encode`: the UTF-8 bytes of `to_json`. -/
def Message.encode (m : Message) : List Nat := utf8Encode m.to_json

/-- One step of the required-field test
`any(k not in packet for k in ('source', 'type', 'data'))`: a membership
`TypeError` propagates, an absent field raises the ValueError, a present
field moves on. The generator is evaluated lazily, first failure wins,
which this chaining preserves. -/
def requireField (p : JValue) (k : String) (next : Except PyErr Message) :
    Except PyErr Message :=
  match pyContains p k with
  | .error e => .error e
  | .ok false => .error (.valueError ("Improperly formatted message."))
  | .ok true => next

/-- The constructor call `cls(packet['source'], packet['type'],
packet['data'])`, with subscript errors propagating. -/
def buildMessage (p : JValue) : Except PyErr Message :=
  match pyGetItem p kSource with
  | .error e => .error e
  | .ok src =>
    match pyGetItem p kType with
    | .error e => .error e
    | .ok ty =>
      match pyGetItem p kData with
      | .error e => .error e
      | .ok da => .ok ⟨src, ty, da⟩

/-- The required-field test followed by field extraction. -/
def parsePacket (p : JValue) : Except PyErr Message :=
  requireField p kSource (requireField p kType (requireField p kData
    (buildMessage p)))

/-- `Message.from_string`: `json.loads`, the required-field membership
test, and the three subscripts. -/
def Message.from_string (s : List Nat) : Except PyErr Message :=
  match jsonParse s with
  | none => .error (.valueError ("Invalid JSON."))
  | some packet => parsePacket packet

/-- `Message.from_bytes`: strict UTF-8 decode (`UnicodeDecodeError`
becomes `ValueError('Invalid utf-8.')`), then `from_string`. -/
def Message.from_bytes (b : List Nat) : Except PyErr Message :=
  match utf8Decode b with
  | none => .error (.valueError ("Invalid utf-8."))
  | some t => Message.from_string t

/-! ### Decimal digit lemmas -/

/-- Value accumulated by `digitsLoop` over a digit run. -/
def digitsVal : Nat → List Nat → Nat
  | acc, [] => acc
  | acc, c :: r => digitsVal (acc * 10 + (c - 48)) r

theorem digitsVal_nil (acc : Nat) : digitsVal acc [] = acc := rfl

theorem digitsVal_cons (acc c : Nat) (r : List Nat) :
    digitsVal acc (c :: r) = digitsVal (acc * 10 + (c - 48)) r := rfl

theorem digitsLoop_nil (acc : Nat) : digitsLoop acc [] = (acc, []) := rfl

theorem digitsLoop_cons (acc c : Nat) (r : List Nat) :
    digitsLoop acc (c :: r) =
      if 48 ≤ c ∧ c ≤ 57 then digitsLoop (acc * 10 + (c - 48)) r
      else (acc, c :: r) := rfl

/-- The input does not begin with a decimal digit character. -/
def notDigitStart : List Nat → Prop
  | [] => True
  | c :: _ => ¬(48 ≤ c ∧ c ≤ 57)

/-- The input cannot continue a numeral: it does not begin with a digit,
a decimal point, or an exponent marker. This holds of the remainder
after every serialized value inside a document (`,`, `]`, `}`,
whitespace or end of input) and is what makes the maximal scans of
`digitsLoop` and `numTail` stop exactly at a serialized numeral's
end. -/
def notNumCont : List Nat → Prop
  | [] => True
  | c :: _ => ¬(48 ≤ c ∧ c ≤ 57) ∧ c ≠ 46 ∧ c ≠ 101 ∧ c ≠ 69

theorem notNumCont_nil : notNumCont [] := trivial

theorem notNumCont_cons {c : Nat} (r : List Nat) (h : ¬(48 ≤ c ∧ c ≤ 57))
    (h46 : c ≠ 46) (h101 : c ≠ 101) (h69 : c ≠ 69) :
    notNumCont (c :: r) := ⟨h, h46, h101, h69⟩

theorem notNumCont_digitStart : ∀ {r : List Nat},
    notNumCont r → notDigitStart r
  | [], _ => trivial
  | _ :: _, h => h.1

theorem digitsVal_append (xs ys : List Nat) :
    ∀ acc, digitsVal acc (xs ++ ys) = digitsVal (digitsVal acc xs) ys := by
  induction xs with
  | nil => intro acc; rfl
  | cons c t ih =>
    intro acc
    rw [List.cons_append, digitsVal_cons, digitsVal_cons, ih]

theorem digitsLoop_spec (ds : List Nat) (hds : ∀ c ∈ ds, 48 ≤ c ∧ c ≤ 57) :
    ∀ acc rest, notDigitStart rest →
      digitsLoop acc (ds ++ rest) = (digitsVal acc ds, rest) := by
  induction ds with
  | nil =>
    intro acc rest hrest
    cases rest with
    | nil => rfl
    | cons c r =>
      rw [List.nil_append, digitsLoop_cons, if_neg hrest, digitsVal_nil]
  | cons d t ih =>
    intro acc rest hrest
    have hd := hds d (List.mem_cons_self d t)
    have ht : ∀ c ∈ t, 48 ≤ c ∧ c ≤ 57 :=
      fun c hc => hds c (List.mem_cons_of_mem d hc)
    rw [List.cons_append, digitsLoop_cons, if_pos hd, digitsVal_cons]
    exact ih ht _ rest hrest

theorem digitsLoop_notDigit (acc : Nat) {r : List Nat}
    (h : notDigitStart r) : digitsLoop acc r = (acc, r) := by
  cases r with
  | nil => rfl
  | cons c r2 => rw [digitsLoop_cons, if_neg h]

theorem natDigitsAux_digits :
    ∀ fuel n, ∀ c ∈ natDigitsAux fuel n, 48 ≤ c ∧ c ≤ 57 := by
  intro fuel
  induction fuel with
  | zero => intro n c hc; simp [natDigitsAux] at hc
  | succ f ih =>
    intro n c hc
    by_cases h : n < 10
    · simp only [natDigitsAux, if_pos h, List.mem_singleton] at hc
      omega
    · simp only [natDigitsAux, if_neg h, List.mem_append,
        List.mem_singleton] at hc
      rcases hc with hc | hc
      · exact ih _ c hc
      · have : n % 10 < 10 := Nat.mod_lt _ (by omega)
        omega

theorem natDigitsAux_ne_nil (fuel n : Nat) (h : 0 < fuel) :
    natDigitsAux fuel n ≠ [] := by
  cases fuel with
  | zero => omega
  | succ f =>
    by_cases hn : n < 10
    · simp [natDigitsAux, if_pos hn]
    · simp [natDigitsAux, if_neg hn]

theorem natDigitsAux_spec :
    ∀ fuel n acc, n + 1 ≤ fuel →
      digitsVal acc (natDigitsAux fuel n) =
        acc * 10 ^ (natDigitsAux fuel n).length + n := by
  intro fuel
  induction fuel with
  | zero => intro n acc h; omega
  | succ f ih =>
    intro n acc _h
    have hstep : natDigitsAux (f + 1) n =
        if n < 10 then [48 + n]
        else natDigitsAux f (n / 10) ++ [48 + n % 10] := rfl
    by_cases hn : n < 10
    · rw [hstep, if_pos hn, digitsVal_cons, digitsVal_nil,
        List.length_singleton, pow_one]
      omega
    · have hfuel : n / 10 + 1 ≤ f := by omega
      rw [hstep, if_neg hn, digitsVal_append, ih _ _ hfuel,
        digitsVal_cons, digitsVal_nil, List.length_append,
        List.length_singleton, Nat.pow_succ]
      have h1 : 48 + n % 10 - 48 = n % 10 := by omega
      rw [h1]
      ring_nf
      omega

theorem natDigits_val (n : Nat) : digitsVal 0 (natDigits n) = n := by
  have h := natDigitsAux_spec (n + 1) n 0 (Nat.le_refl _)
  simpa [natDigits] using h

theorem natDigits_shape (n : Nat) :
    ∃ d ds, natDigits n = d :: ds ∧ (48 ≤ d ∧ d ≤ 57) ∧
      (∀ c ∈ ds, 48 ≤ c ∧ c ≤ 57) := by
  rcases h : natDigits n with _ | ⟨d, ds⟩
  · exact absurd h (natDigitsAux_ne_nil _ _ (by omega))
  · refine ⟨d, ds, rfl, ?_, ?_⟩
    · have := natDigitsAux_digits (n + 1) n d
      rw [natDigits] at h
      exact this (h ▸ List.mem_cons_self d ds)
    · intro c hc
      have := natDigitsAux_digits (n + 1) n c
      rw [natDigits] at h
      exact this (h ▸ List.mem_cons_of_mem d hc)

theorem natDigitsAux_head_pos :
    ∀ fuel n, 0 < n → n + 1 ≤ fuel →
      ∃ d ds, natDigitsAux fuel n = d :: ds ∧ 49 ≤ d ∧ d ≤ 57 ∧
        (∀ c ∈ ds, 48 ≤ c ∧ c ≤ 57) := by
  intro fuel
  induction fuel with
  | zero => intro n hn hf; omega
  | succ f ih =>
    intro n hn _hf
    have hstep : natDigitsAux (f + 1) n =
        if n < 10 then [48 + n]
        else natDigitsAux f (n / 10) ++ [48 + n % 10] := rfl
    by_cases h10 : n < 10
    · exact ⟨48 + n, [], by rw [hstep, if_pos h10], by omega, by omega,
        by intro c hc; simp at hc⟩
    · have hdiv : 0 < n / 10 := by omega
      have hfuel : n / 10 + 1 ≤ f := by omega
      obtain ⟨d, ds, hds, hd1, hd2, hdig⟩ := ih (n / 10) hdiv hfuel
      refine ⟨d, ds ++ [48 + n % 10], ?_, hd1, hd2, ?_⟩
      · rw [hstep, if_neg h10, hds, List.cons_append]
      · intro c hc
        rcases List.mem_append.mp hc with hc | hc
        · exact hdig c hc
        · have : n % 10 < 10 := Nat.mod_lt _ (by omega)
          simp at hc
          omega

theorem natDigits_head_pos (n : Nat) (h : 0 < n) :
    ∃ d ds, natDigits n = d :: ds ∧ 49 ≤ d ∧ d ≤ 57 ∧
      (∀ c ∈ ds, 48 ≤ c ∧ c ≤ 57) :=
  natDigitsAux_head_pos (n + 1) n h (Nat.le_refl _)

/-! ### Simultaneous induction over nested JSON values -/

/-- Induction over a JSON value together with predicates on the nested
element and member lists. -/
theorem JValue.fullInduction (P : JValue → Prop) (Q : List JValue → Prop)
    (R : List (String × JValue) → Prop)
    (hnull : P .null) (hbool : ∀ b, P (.bool b)) (hnum : ∀ n, P (.num n))
    (hstr : ∀ s, P (.str s)) (harr : ∀ xs, Q xs → P (.arr xs))
    (hobj : ∀ ms, R ms → P (.obj ms)) (hfnum : P .fnum) (hqnil : Q [])
    (hqcons : ∀ x t, P x → Q t → Q (x :: t)) (hrnil : R [])
    (hrcons : ∀ k v t, P v → R t → R ((k, v) :: t)) : ∀ v, P v :=
  @JValue.rec P Q R (fun m => P m.2)
    hnull hbool hnum hstr harr hobj hfnum hqnil hqcons hrnil
    (fun hd _tl hhd htl => by
      rcases hd with ⟨k, v⟩
      exact hrcons k v _tl hhd htl)
    (fun _ _ h => h)

/-! ### Serializer equations and ASCII output -/

theorem serJ_null : serJ .null = [110, 117, 108, 108] := rfl

theorem serJ_true : serJ (.bool true) = [116, 114, 117, 101] := rfl

theorem serJ_false : serJ (.bool false) = [102, 97, 108, 115, 101] := rfl

theorem serJ_num (i : Int) : serJ (.num i) = serInt i := rfl

theorem serJ_str (s : String) : serJ (.str s) = serString s := rfl

theorem serJ_arrNil : serJ (.arr []) = [91, 93] := rfl

theorem serJ_arrCons (x : JValue) (t : List JValue) :
    serJ (.arr (x :: t)) = (91 :: (serJ x ++ serElemsTail t)) ++ [93] := rfl

theorem serJ_objNil : serJ (.obj []) = [123, 125] := rfl

theorem serJ_objCons (m : String × JValue) (t : List (String × JValue)) :
    serJ (.obj (m :: t)) = (123 :: (serMember m ++ serMembersTail t)) ++ [125] := rfl

theorem serJ_fnum : serJ .fnum = [48, 46, 48] := rfl

theorem serElemsTail_nil : serElemsTail [] = [] := rfl

theorem serElemsTail_cons (x : JValue) (t : List JValue) :
    serElemsTail (x :: t) = (44 :: 32 :: serJ x) ++ serElemsTail t := rfl

theorem serMember_pair (k : String) (v : JValue) :
    serMember (k, v) = serString k ++ (58 :: 32 :: serJ v) := rfl

theorem serMembersTail_nil : serMembersTail [] = [] := rfl

theorem serMembersTail_cons (m : String × JValue) (t : List (String × JValue)) :
    serMembersTail (m :: t) = (44 :: 32 :: serMember m) ++ serMembersTail t := rfl

theorem uEscape_ascii (n : Nat) : ∀ c ∈ uEscape n, c < 128 := by
  intro c hc
  have hd : ∀ d, d < 16 → hexDigitCode d < 128 := by
    intro d hd; unfold hexDigitCode; split_ifs <;> omega
  simp only [uEscape, List.mem_cons, List.mem_singleton] at hc
  rcases hc with h | h | h | h | h | h <;>
    first
    | omega
    | (subst h; exact hd _ (Nat.mod_lt _ (by omega)))
    | (rcases h with h | h
       · subst h; exact hd _ (Nat.mod_lt _ (by omega))
       · simp at h)

theorem escChar_ascii (n : Nat) : ∀ c ∈ escChar n, c < 128 := by
  intro c hc
  unfold escChar at hc
  by_cases h1 : n = 34
  · rw [if_pos h1] at hc; simp only [List.mem_cons, List.not_mem_nil, or_false] at hc
    rcases hc with rfl | rfl <;> omega
  rw [if_neg h1] at hc
  by_cases h2 : n = 92
  · rw [if_pos h2] at hc; simp only [List.mem_cons, List.not_mem_nil, or_false] at hc
    rcases hc with rfl | rfl <;> omega
  rw [if_neg h2] at hc
  by_cases h3 : n = 8
  · rw [if_pos h3] at hc; simp only [List.mem_cons, List.not_mem_nil, or_false] at hc
    rcases hc with rfl | rfl <;> omega
  rw [if_neg h3] at hc
  by_cases h4 : n = 12
  · rw [if_pos h4] at hc; simp only [List.mem_cons, List.not_mem_nil, or_false] at hc
    rcases hc with rfl | rfl <;> omega
  rw [if_neg h4] at hc
  by_cases h5 : n = 10
  · rw [if_pos h5] at hc; simp only [List.mem_cons, List.not_mem_nil, or_false] at hc
    rcases hc with rfl | rfl <;> omega
  rw [if_neg h5] at hc
  by_cases h6 : n = 13
  · rw [if_pos h6] at hc; simp only [List.mem_cons, List.not_mem_nil, or_false] at hc
    rcases hc with rfl | rfl <;> omega
  rw [if_neg h6] at hc
  by_cases h7 : n = 9
  · rw [if_pos h7] at hc; simp only [List.mem_cons, List.not_mem_nil, or_false] at hc
    rcases hc with rfl | rfl <;> omega
  rw [if_neg h7] at hc
  by_cases h8 : n < 32
  · rw [if_pos h8] at hc; exact uEscape_ascii _ c hc
  rw [if_neg h8] at hc
  by_cases h9 : n < 128
  · rw [if_pos h9] at hc; simp only [List.mem_singleton] at hc; omega
  rw [if_neg h9] at hc
  by_cases h10 : n < 65536
  · rw [if_pos h10] at hc; exact uEscape_ascii _ c hc
  rw [if_neg h10] at hc
  rcases List.mem_append.mp hc with hc | hc <;> exact uEscape_ascii _ c hc

theorem serString_ascii (s : String) : ∀ c ∈ serString s, c < 128 := by
  intro c hc
  simp only [serString, List.mem_append, List.mem_cons,
    List.not_mem_nil, or_false] at hc
  rcases hc with (hc | hc) | hc
  · omega
  · rw [List.mem_flatMap] at hc
    rcases hc with ⟨ch, _, hc⟩
    exact escChar_ascii _ c hc
  · omega

theorem serInt_ascii (i : Int) : ∀ c ∈ serInt i, c < 128 := by
  intro c hc
  unfold serInt at hc
  split_ifs at hc with h
  · rcases List.mem_cons.mp hc with hc | hc
    · omega
    · have := natDigitsAux_digits _ _ c hc
      omega
  · have := natDigitsAux_digits _ _ c hc
    omega

theorem serJ_ascii : ∀ v : JValue, ∀ c ∈ serJ v, c < 128 := by
  apply JValue.fullInduction (fun v => ∀ c ∈ serJ v, c < 128)
    (fun xs => ∀ c ∈ serElemsTail xs, c < 128)
    (fun ms => ∀ c ∈ serMembersTail ms, c < 128)
  · intro c hc; rw [serJ_null] at hc; simp at hc; omega
  · intro b c hc
    cases b
    · rw [serJ_false] at hc; simp at hc; omega
    · rw [serJ_true] at hc; simp at hc; omega
  · intro n c hc; rw [serJ_num] at hc; exact serInt_ascii n c hc
  · intro s c hc; rw [serJ_str] at hc; exact serString_ascii s c hc
  · intro xs hq c hc
    cases xs with
    | nil => rw [serJ_arrNil] at hc; simp at hc; omega
    | cons x t =>
      rw [serJ_arrCons] at hc
      simp only [List.mem_append, List.mem_cons, List.not_mem_nil,
        or_false] at hc
      rcases hc with (hc | hc) | hc
      · omega
      · apply hq
        rw [serElemsTail_cons]
        simp only [List.mem_append, List.mem_cons]
        tauto
      · omega
  · intro ms hr c hc
    cases ms with
    | nil => rw [serJ_objNil] at hc; simp at hc; omega
    | cons m t =>
      rw [serJ_objCons] at hc
      simp only [List.mem_append, List.mem_cons, List.not_mem_nil,
        or_false] at hc
      rcases hc with (hc | hc) | hc
      · omega
      · apply hr
        rw [serMembersTail_cons]
        simp only [List.mem_append, List.mem_cons]
        tauto
      · omega
  · intro c hc; rw [serJ_fnum] at hc; simp at hc; omega
  · intro c hc; rw [serElemsTail_nil] at hc; simp at hc
  · intro x t hx ht c hc
    rw [serElemsTail_cons] at hc
    simp only [List.mem_append, List.mem_cons] at hc
    rcases hc with (hc | hc | hc) | hc
    · omega
    · omega
    · exact hx c hc
    · exact ht c hc
  · intro c hc; rw [serMembersTail_nil] at hc; simp at hc
  · intro k v t hv ht c hc
    rw [serMembersTail_cons] at hc
    simp only [List.mem_append, List.mem_cons] at hc
    rcases hc with (hc | hc | hc) | hc
    · omega
    · omega
    · rw [serMember_pair] at hc
      simp only [List.mem_append, List.mem_cons] at hc
      rcases hc with hc | hc | hc | hc
      · exact serString_ascii k c hc
      · omega
      · omega
      · exact hv c hc
    · exact ht c hc

/-! ### Fuel requirements of the parser -/

mutual
/-- A sufficient fuel bound (exclusive) for `parseValue` on a serialized
value. -/
def reqV : JValue → Nat
  | .null => 1
  | .bool _ => 1
  | .num _ => 1
  | .str _ => 1
  | .arr xs => 1 + reqE xs
  | .obj ms => 1 + reqM ms
  | .fnum => 1

/-- A sufficient fuel bound for `parseElems` on serialized elements. -/
def reqE : List JValue → Nat
  | [] => 0
  | x :: t => 1 + reqV x + reqE t

/-- A sufficient fuel bound for `parseMembers` on serialized members. -/
def reqM : List (String × JValue) → Nat
  | [] => 0
  | (_, v) :: t => 1 + reqV v + reqM t
end

theorem reqV_null : reqV .null = 1 := rfl

theorem reqV_bool (b : Bool) : reqV (.bool b) = 1 := rfl

theorem reqV_num (n : Int) : reqV (.num n) = 1 := rfl

theorem reqV_str (s : String) : reqV (.str s) = 1 := rfl

theorem reqV_arr (xs : List JValue) : reqV (.arr xs) = 1 + reqE xs := rfl

theorem reqV_obj (ms : List (String × JValue)) :
    reqV (.obj ms) = 1 + reqM ms := rfl

theorem reqV_fnum : reqV .fnum = 1 := rfl

theorem reqE_nil : reqE [] = 0 := rfl

theorem reqE_cons (x : JValue) (t : List JValue) :
    reqE (x :: t) = 1 + reqV x + reqE t := rfl

theorem reqM_nil : reqM [] = 0 := rfl

theorem reqM_cons (k : String) (v : JValue) (t : List (String × JValue)) :
    reqM ((k, v) :: t) = 1 + reqV v + reqM t := rfl

theorem serString_length (s : String) : 2 ≤ (serString s).length := by
  simp only [serString, List.length_append, List.length_cons]
  omega

theorem serInt_length (i : Int) : 1 ≤ (serInt i).length := by
  have : serInt i ≠ [] := by
    unfold serInt
    split_ifs
    · simp
    · exact natDigitsAux_ne_nil _ _ (by omega)
  have := List.length_pos.mpr this
  omega

theorem reqV_le_serLength :
    ∀ v : JValue, reqV v ≤ (serJ v).length := by
  apply JValue.fullInduction (fun v => reqV v ≤ (serJ v).length)
    (fun xs => reqE xs + xs.length ≤ (serElemsTail xs).length)
    (fun ms => reqM ms + ms.length ≤ (serMembersTail ms).length)
  · rw [serJ_null, reqV_null]; simp
  · intro b
    cases b
    · rw [serJ_false, reqV_bool]; simp
    · rw [serJ_true, reqV_bool]; simp
  · intro n
    rw [serJ_num, reqV_num]
    exact serInt_length n
  · intro s
    rw [serJ_str, reqV_str]
    have := serString_length s
    omega
  · intro xs hq
    cases xs with
    | nil => rw [serJ_arrNil, reqV_arr, reqE_nil]; simp
    | cons x t =>
      rw [serJ_arrCons, reqV_arr]
      rw [serElemsTail_cons] at hq
      simp only [List.length_append, List.length_cons] at *
      omega
  · intro ms hr
    cases ms with
    | nil => rw [serJ_objNil, reqV_obj, reqM_nil]; simp
    | cons m t =>
      rcases m with ⟨k, v⟩
      rw [serJ_objCons, reqV_obj]
      rw [serMembersTail_cons] at hr
      simp only [List.length_append, List.length_cons] at *
      omega
  · rw [serJ_fnum, reqV_fnum]; simp
  · rw [reqE_nil, serElemsTail_nil]; simp
  · intro x t hx ht
    rw [serElemsTail_cons, reqE_cons]
    simp only [List.length_append, List.length_cons] at *
    omega
  · rw [reqM_nil, serMembersTail_nil]; simp
  · intro k v t hv ht
    rw [serMembersTail_cons, serMember_pair, reqM_cons]
    have := serString_length k
    simp only [List.length_append, List.length_cons] at *
    omega

/-! ### String literal round trip -/

theorem charOfNatAux_toNat (c : Char) (h : c.toNat.isValidChar) :
    Char.ofNatAux c.toNat h = c := by
  apply Char.ext
  apply UInt32.ext
  simp [Char.ofNatAux, UInt32.toNat, Char.toNat]

theorem hexVal_hexDigitCode (d : Nat) (h : d < 16) :
    hexVal (hexDigitCode d) = some d := by
  unfold hexDigitCode hexVal
  split_ifs <;> first | (congr 1; omega) | omega

theorem hex4_digitsOf (m : Nat) (hm : m < 65536) :
    hex4 (hexDigitCode (m / 4096 % 16)) (hexDigitCode (m / 256 % 16))
      (hexDigitCode (m / 16 % 16)) (hexDigitCode (m % 16)) = some m := by
  have e1 := hexVal_hexDigitCode (m / 4096 % 16) (Nat.mod_lt _ (by omega))
  have e2 := hexVal_hexDigitCode (m / 256 % 16) (Nat.mod_lt _ (by omega))
  have e3 := hexVal_hexDigitCode (m / 16 % 16) (Nat.mod_lt _ (by omega))
  have e4 := hexVal_hexDigitCode (m % 16) (Nat.mod_lt _ (by omega))
  unfold hex4
  rw [e1, e2, e3, e4]
  show some (((m / 4096 % 16 * 16 + m / 256 % 16) * 16 + m / 16 % 16) * 16 +
    m % 16) = some m
  congr 1
  omega

theorem uEscape_eq (n : Nat) :
    uEscape n = 92 :: 117 :: hexDigitCode (n / 4096 % 16) ::
      hexDigitCode (n / 256 % 16) :: hexDigitCode (n / 16 % 16) ::
      hexDigitCode (n % 16) :: [] := rfl

theorem stringChunk_cons (c : Nat) (rest : List Nat) :
    stringChunk (c :: rest) =
      if c = 34 then some (.close, rest)
      else if c = 92 then escChunk rest
      else if c < 32 then none
      else some (.point c, rest) := rfl

theorem escChunk_u (a b c d : Nat) (r : List Nat) :
    escChunk (117 :: a :: b :: c :: d :: r) = uValue (hex4 a b c d) r := rfl

theorem uValue_some (n : Nat) (r : List Nat) :
    uValue (some n) r =
      if 0xD800 ≤ n ∧ n < 0xDC00 then lowSurrogate n r
      else if 0xDC00 ≤ n ∧ n < 0xE000 then none
      else some (.point n, r) := rfl

theorem lowSurrogate_eq (n a b c d : Nat) (r2 : List Nat) :
    lowSurrogate n (92 :: 117 :: a :: b :: c :: d :: r2) =
      joinSurrogates n (hex4 a b c d) r2 := rfl

theorem joinSurrogates_some (n m : Nat) (r2 : List Nat) :
    joinSurrogates n (some m) r2 =
      if 0xDC00 ≤ m ∧ m < 0xE000 then
        some (.point (0x10000 + (n - 0xD800) * 1024 + (m - 0xDC00)), r2)
      else none := rfl

theorem joinSurrogates_low (n m : Nat) (h1 : 0xDC00 ≤ m) (h2 : m < 0xE000)
    (r2 : List Nat) :
    joinSurrogates n (some m) r2 =
      some (.point (0x10000 + (n - 0xD800) * 1024 + (m - 0xDC00)), r2) := by
  rw [joinSurrogates_some, if_pos ⟨h1, h2⟩]

theorem uValue_high (hi : Nat) (h1 : 0xD800 ≤ hi) (h2 : hi < 0xDC00)
    (r : List Nat) : uValue (some hi) r = lowSurrogate hi r := by
  rw [uValue_some, if_pos ⟨h1, h2⟩]

theorem stringChunk_uEscape (m : Nat) (hm : m < 65536)
    (hs : ¬(0xD800 ≤ m ∧ m < 0xE000)) (tail : List Nat) :
    stringChunk (uEscape m ++ tail) = some (.point m, tail) := by
  rw [uEscape_eq]
  simp only [List.cons_append, List.nil_append]
  rw [stringChunk_cons, if_neg (by omega), if_pos rfl, escChunk_u,
    hex4_digitsOf m hm, uValue_some]
  rw [if_neg (by omega), if_neg (by omega)]

set_option maxRecDepth 4096 in
theorem stringChunk_pair (n : Nat) (h1 : 65536 ≤ n) (h2 : n < 0x110000)
    (tail : List Nat) :
    stringChunk ((uEscape (55296 + (n - 65536) / 1024) ++
      uEscape (56320 + (n - 65536) % 1024)) ++ tail) =
      some (.point n, tail) := by
  have hq : (n - 65536) / 1024 < 1024 := by omega
  have hr : (n - 65536) % 1024 < 1024 := Nat.mod_lt _ (by omega)
  rw [uEscape_eq (55296 + (n - 65536) / 1024), uEscape_eq]
  simp only [List.cons_append, List.nil_append]
  rw [stringChunk_cons, if_neg (by omega), if_pos rfl, escChunk_u,
    hex4_digitsOf _ (by omega)]
  rw [uValue_high _ (by omega) (by omega)]
  rw [lowSurrogate_eq]
  rw [hex4_digitsOf _ (by omega)]
  rw [joinSurrogates_low _ _ (by omega) (by omega)]
  have hval : 0x10000 + (55296 + (n - 65536) / 1024 - 0xD800) * 1024 +
      (56320 + (n - 65536) % 1024 - 0xDC00) = n := by omega
  rw [hval]

theorem stringChunk_escChar (n : Nat) (hval : n.isValidChar)
    (tail : List Nat) :
    stringChunk (escChar n ++ tail) = some (.point n, tail) := by
  have hval' : n < 0xd800 ∨ (0xdfff < n ∧ n < 0x110000) := hval
  unfold escChar
  by_cases h1 : n = 34
  · rw [if_pos h1]; subst h1; rfl
  rw [if_neg h1]
  by_cases h2 : n = 92
  · rw [if_pos h2]; subst h2; rfl
  rw [if_neg h2]
  by_cases h3 : n = 8
  · rw [if_pos h3]; subst h3; rfl
  rw [if_neg h3]
  by_cases h4 : n = 12
  · rw [if_pos h4]; subst h4; rfl
  rw [if_neg h4]
  by_cases h5 : n = 10
  · rw [if_pos h5]; subst h5; rfl
  rw [if_neg h5]
  by_cases h6 : n = 13
  · rw [if_pos h6]; subst h6; rfl
  rw [if_neg h6]
  by_cases h7 : n = 9
  · rw [if_pos h7]; subst h7; rfl
  rw [if_neg h7]
  by_cases h8 : n < 32
  · rw [if_pos h8]
    exact stringChunk_uEscape n (by omega) (by omega) tail
  rw [if_neg h8]
  by_cases h9 : n < 128
  · rw [if_pos h9]
    simp only [List.cons_append, List.nil_append]
    rw [stringChunk_cons, if_neg h1, if_neg h2, if_neg h8]
  rw [if_neg h9]
  by_cases h10 : n < 65536
  · rw [if_pos h10]
    exact stringChunk_uEscape n h10 (by omega) tail
  rw [if_neg h10]
  rw [List.append_assoc]
  rw [← List.append_assoc (uEscape (55296 + (n - 65536) / 1024))]
  exact stringChunk_pair n (by omega) (by omega) tail

theorem parseStringAux_succ (f : Nat) (s : List Nat) :
    parseStringAux (f + 1) s =
      match stringChunk s with
      | some (.close, r) => some ([], r)
      | some (.point n, r) => charCons n (parseStringAux f r)
      | none => none := rfl

theorem parseStringAux_close (f : Nat) (s r : List Nat)
    (h : stringChunk s = some (.close, r)) :
    parseStringAux (f + 1) s = some ([], r) := by
  rw [parseStringAux_succ, h]

theorem parseStringAux_point (f : Nat) (s : List Nat) (n : Nat)
    (r : List Nat) (h : stringChunk s = some (.point n, r)) :
    parseStringAux (f + 1) s = charCons n (parseStringAux f r) := by
  rw [parseStringAux_succ, h]

theorem charCons_some (n : Nat) (h : n.isValidChar) (cs : List Char)
    (r2 : List Nat) :
    charCons n (some (cs, r2)) = some (Char.ofNatAux n h :: cs, r2) := by
  unfold charCons
  rw [dif_pos h]

theorem parseStringAux_ser (cs : List Char) :
    ∀ tail fuel, cs.length + 1 ≤ fuel →
      parseStringAux fuel
        ((cs.flatMap (fun c => escChar c.toNat)) ++ (34 :: tail)) =
        some (cs, tail) := by
  induction cs with
  | nil =>
    intro tail fuel hf
    cases fuel with
    | zero => omega
    | succ f =>
      simp only [List.flatMap_nil, List.nil_append]
      exact parseStringAux_close f _ tail rfl
  | cons c t ih =>
    intro tail fuel hf
    cases fuel with
    | zero => simp at hf
    | succ f =>
      have hlen : t.length + 1 ≤ f := by
        simp only [List.length_cons] at hf; omega
      have hv : c.toNat.isValidChar := c.valid
      simp only [List.flatMap_cons, List.append_assoc]
      rw [parseStringAux_point f _ c.toNat _ (stringChunk_escChar c.toNat hv _),
        ih tail f hlen, charCons_some c.toNat hv, charOfNatAux_toNat c hv]

theorem escChar_length_pos (n : Nat) : 1 ≤ (escChar n).length := by
  unfold escChar
  by_cases h1 : n = 34
  · rw [if_pos h1]; simp
  rw [if_neg h1]
  by_cases h2 : n = 92
  · rw [if_pos h2]; simp
  rw [if_neg h2]
  by_cases h3 : n = 8
  · rw [if_pos h3]; simp
  rw [if_neg h3]
  by_cases h4 : n = 12
  · rw [if_pos h4]; simp
  rw [if_neg h4]
  by_cases h5 : n = 10
  · rw [if_pos h5]; simp
  rw [if_neg h5]
  by_cases h6 : n = 13
  · rw [if_pos h6]; simp
  rw [if_neg h6]
  by_cases h7 : n = 9
  · rw [if_pos h7]; simp
  rw [if_neg h7]
  by_cases h8 : n < 32
  · rw [if_pos h8, uEscape_eq]; simp
  rw [if_neg h8]
  by_cases h9 : n < 128
  · rw [if_pos h9]; simp
  rw [if_neg h9]
  by_cases h10 : n < 65536
  · rw [if_pos h10, uEscape_eq]; simp
  rw [if_neg h10]
  rw [uEscape_eq, uEscape_eq]
  simp

theorem escBody_length (cs : List Char) :
    cs.length ≤ (cs.flatMap (fun c => escChar c.toNat)).length := by
  induction cs with
  | nil => simp
  | cons c t ih =>
    have := escChar_length_pos c.toNat
    simp only [List.flatMap_cons, List.length_append, List.length_cons]
    omega

/-! ### Parser step equations and head-shape lemmas -/

theorem skipWs_nil : skipWs [] = [] := rfl

theorem skipWs_cons (c : Nat) (r : List Nat) :
    skipWs (c :: r) =
      if c = 32 ∨ c = 9 ∨ c = 10 ∨ c = 13 then skipWs r else c :: r := rfl

theorem skipWs_not {c : Nat} (h : ¬(c = 32 ∨ c = 9 ∨ c = 10 ∨ c = 13))
    (r : List Nat) : skipWs (c :: r) = c :: r := by
  rw [skipWs_cons, if_neg h]

theorem skipWs_space (r : List Nat) : skipWs (32 :: r) = skipWs r := by
  rw [skipWs_cons, if_pos (Or.inl rfl)]

theorem notDigitStart_nil : notDigitStart [] := trivial

theorem notDigitStart_cons {c : Nat} (r : List Nat)
    (h : ¬(48 ≤ c ∧ c ≤ 57)) : notDigitStart (c :: r) := h

theorem mkStrRes_some (cs : List Char) (r : List Nat) :
    mkStrRes (some (cs, r)) = some (.str (String.mk cs), r) := rfl

theorem mkArrRes_some (xs : List JValue) (r : List Nat) :
    mkArrRes (some (xs, r)) = some (.arr xs, r) := rfl

theorem mkObjRes_some (ms : List (String × JValue)) (r : List Nat) :
    mkObjRes (some (ms, r)) = some (.obj ms, r) := rfl

theorem consElemRes_some (v : JValue) (xs : List JValue) (r3 : List Nat) :
    consElemRes v (some (xs, r3)) = some (v :: xs, r3) := rfl

theorem consMemberRes_some (k : String) (v : JValue)
    (ms : List (String × JValue)) (r5 : List Nat) :
    consMemberRes k v (some (ms, r5)) = some ((k, v) :: ms, r5) := rfl

theorem intVal_false (n : Nat) : intVal false n = (n : Int) := rfl

theorem intVal_true (n : Nat) : intVal true n = -(n : Int) := rfl

theorem intDigits_zero (r : List Nat) : intDigits 48 r = (0, r) := rfl

theorem intDigits_nonzero {d : Nat} (r : List Nat) (h : d ≠ 48) :
    intDigits d r = digitsLoop (d - 48) r := by
  unfold intDigits
  rw [if_neg h]

theorem numTailP_pair (neg : Bool) (n : Nat) (r : List Nat) :
    numTailP neg (n, r) = numTail neg n r := rfl

theorem numTail_nil (neg : Bool) (n : Nat) :
    numTail neg n [] = some (.num (intVal neg n), []) := rfl

theorem numTail_cons (neg : Bool) (n c : Nat) (r2 : List Nat) :
    numTail neg n (c :: r2) =
    if c = 46 then
      (match r2 with
      | d :: r3 =>
        if 48 ≤ d ∧ d ≤ 57 then fracExp (digitsLoop (d - 48) r3) else none
      | [] => none)
    else if c = 101 ∨ c = 69 then expRes (expTail r2)
    else some (.num (intVal neg n), c :: r2) := rfl

theorem numTail_notNumCont (neg : Bool) (n : Nat) {r : List Nat}
    (h : notNumCont r) : numTail neg n r = some (.num (intVal neg n), r) := by
  cases r with
  | nil => rfl
  | cons c r2 =>
    obtain ⟨_, h46, h101, h69⟩ := h
    rw [numTail_cons, if_neg h46, if_neg (fun hor => hor.elim h101 h69)]

theorem fracExp_nil (m : Nat) : fracExp (m, []) = some (.fnum, []) := rfl

theorem fracExp_cons (m c : Nat) (r4 : List Nat) :
    fracExp (m, c :: r4) =
    if c = 101 ∨ c = 69 then expRes (expTail r4)
    else some (.fnum, c :: r4) := rfl

theorem fracExp_notNumCont (m : Nat) {r : List Nat} (h : notNumCont r) :
    fracExp (m, r) = some (.fnum, r) := by
  cases r with
  | nil => rfl
  | cons c r4 =>
    obtain ⟨_, _, h101, h69⟩ := h
    rw [fracExp_cons, if_neg (fun hor => hor.elim h101 h69)]

theorem parseValue_succ (fuel : Nat) (s : List Nat) :
    parseValue (fuel + 1) s =
      match skipWs s with
      | [] => none
      | c :: rest =>
        if c = 110 then
          match rest with
          | 117 :: 108 :: 108 :: r => some (.null, r)
          | _ => none
        else if c = 116 then
          match rest with
          | 114 :: 117 :: 101 :: r => some (.bool true, r)
          | _ => none
        else if c = 102 then
          match rest with
          | 97 :: 108 :: 115 :: 101 :: r => some (.bool false, r)
          | _ => none
        else if c = 34 then mkStrRes (parseStringAux rest.length rest)
        else if c = 91 then
          (match skipWs rest with
          | c2 :: r2 =>
            if c2 = 93 then some (.arr [], r2)
            else mkArrRes (parseElems fuel (c2 :: r2))
          | [] => mkArrRes (parseElems fuel []))
        else if c = 123 then
          (match skipWs rest with
          | c2 :: r2 =>
            if c2 = 125 then some (.obj [], r2)
            else mkObjRes (parseMembers fuel (c2 :: r2))
          | [] => mkObjRes (parseMembers fuel []))
        else if c = 45 then
          match rest with
          | d :: r2 =>
            if d = 73 then
              match r2 with
              | 110 :: 102 :: 105 :: 110 :: 105 :: 116 :: 121 :: r3 =>
                some (.fnum, r3)
              | _ => none
            else if 48 ≤ d ∧ d ≤ 57 then numTailP true (intDigits d r2)
            else none
          | [] => none
        else if 48 ≤ c ∧ c ≤ 57 then numTailP false (intDigits c rest)
        else if c = 78 then
          match rest with
          | 97 :: 78 :: r => some (.fnum, r)
          | _ => none
        else if c = 73 then
          match rest with
          | 110 :: 102 :: 105 :: 110 :: 105 :: 116 :: 121 :: r =>
            some (.fnum, r)
          | _ => none
        else none := rfl

theorem parseElems_succ (fuel : Nat) (s : List Nat) :
    parseElems (fuel + 1) s =
      match parseValue fuel s with
      | some (v, r) =>
        (match skipWs r with
        | 44 :: r2 => consElemRes v (parseElems fuel r2)
        | 93 :: r2 => some ([v], r2)
        | _ => none)
      | none => none := rfl

theorem parseMembers_succ (fuel : Nat) (s : List Nat) :
    parseMembers (fuel + 1) s =
      match skipWs s with
      | 34 :: r =>
        match parseStringAux r.length r with
        | some (cs, r1) =>
          (match skipWs r1 with
          | 58 :: r2 =>
            match parseValue fuel r2 with
            | some (v, r3) =>
              (match skipWs r3 with
              | 44 :: r4 =>
                consMemberRes (String.mk cs) v (parseMembers fuel r4)
              | 125 :: r4 => some ([(String.mk cs, v)], r4)
              | _ => none)
            | none => none
          | _ => none)
        | none => none
      | _ => none := rfl

theorem serJ_shape (v : JValue) :
    ∃ c cs, serJ v = c :: cs ∧
      (c = 110 ∨ c = 116 ∨ c = 102 ∨ c = 34 ∨ c = 91 ∨ c = 123 ∨ c = 45 ∨
        (48 ≤ c ∧ c ≤ 57)) := by
  cases v with
  | null => exact ⟨110, _, serJ_null, by omega⟩
  | bool b =>
    cases b
    · exact ⟨102, _, serJ_false, by omega⟩
    · exact ⟨116, _, serJ_true, by omega⟩
  | num i =>
    rw [serJ_num]
    unfold serInt
    by_cases hi : i < 0
    · exact ⟨45, _, by rw [if_pos hi], by omega⟩
    · obtain ⟨d, ds, hshape, hd, _⟩ := natDigits_shape i.toNat
      exact ⟨d, ds, by rw [if_neg hi]; exact hshape, by omega⟩
  | str s =>
    exact ⟨34, s.data.flatMap (fun c => escChar c.toNat) ++ [34],
      by rw [serJ_str]; simp [serString], by omega⟩
  | arr xs =>
    cases xs with
    | nil => exact ⟨91, _, serJ_arrNil, by omega⟩
    | cons x t =>
      exact ⟨91, (serJ x ++ serElemsTail t) ++ [93],
        by rw [serJ_arrCons]; simp, by omega⟩
  | obj ms =>
    cases ms with
    | nil => exact ⟨123, _, serJ_objNil, by omega⟩
    | cons m t =>
      exact ⟨123, (serMember m ++ serMembersTail t) ++ [125],
        by rw [serJ_objCons]; simp, by omega⟩
  | fnum => exact ⟨48, [46, 48], serJ_fnum, by omega⟩

theorem skipWs_serJ_append (v : JValue) (rest : List Nat) :
    skipWs (serJ v ++ rest) = serJ v ++ rest := by
  obtain ⟨c, cs, hser, hc⟩ := serJ_shape v
  rw [hser, List.cons_append, skipWs_not (by omega), ← List.cons_append]

theorem reqV_pos (v : JValue) : 1 ≤ reqV v := by
  cases v with
  | null => rw [reqV_null]
  | bool b => rw [reqV_bool]
  | num n => rw [reqV_num]
  | str s => rw [reqV_str]
  | arr xs => rw [reqV_arr]; omega
  | obj ms => rw [reqV_obj]; omega
  | fnum => rw [reqV_fnum]

theorem parseValue_digitHead (f : Nat) (s : List Nat) (d : Nat)
    (tail : List Nat) (hskip : skipWs s = d :: tail)
    (hd : 48 ≤ d ∧ d ≤ 57) :
    parseValue (f + 1) s = numTailP false (intDigits d tail) := by
  rw [parseValue_succ, hskip]
  obtain ⟨h1, h2⟩ := hd
  interval_cases d <;> rfl

theorem serMember_shape (k : String) (v : JValue) :
    ∃ cs, serMember (k, v) = 34 :: cs := by
  refine ⟨k.data.flatMap (fun c => escChar c.toNat) ++
    (34 :: (58 :: 32 :: serJ v)), ?_⟩
  rw [serMember_pair]
  simp [serString]

theorem skipWs_serMember_append (k : String) (v : JValue) (rest : List Nat) :
    skipWs (serMember (k, v) ++ rest) = serMember (k, v) ++ rest := by
  obtain ⟨cs, h⟩ := serMember_shape k v
  rw [h, List.cons_append, skipWs_not (by omega), ← List.cons_append, ← h]

/-- The recursive-descent reading inverts `json.dumps` output: parsing a
serialized value (element list, member list) consumes exactly that text and
returns the original value, for any fuel above the `req` bound. -/
theorem parse_ser_master (fuel : Nat) :
    (∀ v s rest, reqV v < fuel → skipWs s = serJ v ++ rest →
      notNumCont rest → parseValue fuel s = some (v, rest)) ∧
    (∀ x t s rest, reqE (x :: t) < fuel →
      skipWs s = serJ x ++ (serElemsTail t ++ (93 :: rest)) →
      parseElems fuel s = some (x :: t, rest)) ∧
    (∀ k v t s rest, reqM ((k, v) :: t) < fuel →
      skipWs s = serMember (k, v) ++ (serMembersTail t ++ (125 :: rest)) →
      parseMembers fuel s = some ((k, v) :: t, rest)) := by
  induction fuel using Nat.strong_induction_on with
  | _ fuel ih =>
    cases fuel with
    | zero =>
      refine ⟨?_, ?_, ?_⟩
      · intro v s rest hreq _ _
        exact absurd hreq (by omega)
      · intro x t s rest hreq _
        exact absurd hreq (by omega)
      · intro k v t s rest hreq _
        exact absurd hreq (by omega)
    | succ f =>
      obtain ⟨ihV, ihE, ihM⟩ := ih f (Nat.lt_succ_self f)
      refine ⟨?_, ?_, ?_⟩
      · -- parseValue on a serialized value
        intro v s rest hreq hskip hnd
        cases v with
        | null =>
          rw [serJ_null] at hskip
          simp only [List.cons_append, List.nil_append] at hskip
          rw [parseValue_succ, hskip]
          rfl
        | bool b =>
          cases b
          · rw [serJ_false] at hskip
            simp only [List.cons_append, List.nil_append] at hskip
            rw [parseValue_succ, hskip]
            rfl
          · rw [serJ_true] at hskip
            simp only [List.cons_append, List.nil_append] at hskip
            rw [parseValue_succ, hskip]
            rfl
        | num i =>
          rw [serJ_num] at hskip
          unfold serInt at hskip
          by_cases hi : i < 0
          · rw [if_pos hi] at hskip
            obtain ⟨d, ds, hnd', hd9, hd57, hds⟩ :=
              natDigits_head_pos i.natAbs (by omega)
            rw [hnd'] at hskip
            simp only [List.cons_append] at hskip
            rw [parseValue_succ, hskip]
            show (if d = 73 then
                (match ds ++ rest with
                | 110 :: 102 :: 105 :: 110 :: 105 :: 116 :: 121 :: r3 =>
                  some (.fnum, r3)
                | _ => none)
              else if 48 ≤ d ∧ d ≤ 57 then
                numTailP true (intDigits d (ds ++ rest))
              else none) = some (.num i, rest)
            rw [if_neg (by omega), if_pos (by omega : 48 ≤ d ∧ d ≤ 57),
              intDigits_nonzero _ (by omega),
              digitsLoop_spec ds hds (d - 48) rest
                (notNumCont_digitStart hnd),
              numTailP_pair, numTail_notNumCont true _ hnd, intVal_true]
            have hval : digitsVal (d - 48) ds = i.natAbs := by
              have h0 := natDigits_val i.natAbs
              rw [hnd', digitsVal_cons] at h0
              simpa using h0
            rw [hval]
            have hcast : (-(i.natAbs : Int)) = i := by omega
            rw [hcast]
          · rw [if_neg hi] at hskip
            by_cases h0 : i.toNat = 0
            · rw [h0] at hskip
              have hn0 : natDigits 0 = [48] := rfl
              rw [hn0] at hskip
              simp only [List.cons_append, List.nil_append] at hskip
              rw [parseValue_digitHead f s 48 rest hskip (by omega),
                intDigits_zero, numTailP_pair,
                numTail_notNumCont false _ hnd, intVal_false]
              have : ((0 : Nat) : Int) = i := by omega
              rw [this]
            · obtain ⟨d, ds, hnd', hd9, hd57, hds⟩ :=
                natDigits_head_pos i.toNat (by omega)
              rw [hnd'] at hskip
              simp only [List.cons_append] at hskip
              rw [parseValue_digitHead f s d (ds ++ rest) hskip
                  (by omega : 48 ≤ d ∧ d ≤ 57),
                intDigits_nonzero _ (by omega),
                digitsLoop_spec ds hds (d - 48) rest
                  (notNumCont_digitStart hnd),
                numTailP_pair, numTail_notNumCont false _ hnd, intVal_false]
              have hval : digitsVal (d - 48) ds = i.toNat := by
                have h0v := natDigits_val i.toNat
                rw [hnd', digitsVal_cons] at h0v
                simpa using h0v
              rw [hval]
              have hcast : ((i.toNat : Nat) : Int) = i := by omega
              rw [hcast]
        | str s' =>
          rw [serJ_str] at hskip
          simp only [serString, List.cons_append, List.append_assoc,
            List.singleton_append] at hskip
          rw [parseValue_succ, hskip]
          show mkStrRes (parseStringAux
            (s'.data.flatMap (fun c => escChar c.toNat) ++ (34 :: rest)).length
            (s'.data.flatMap (fun c => escChar c.toNat) ++ (34 :: rest))) =
            some (.str s', rest)
          have hfuel : s'.data.length + 1 ≤
              (s'.data.flatMap (fun c => escChar c.toNat) ++
                (34 :: rest)).length := by
            have := escBody_length s'.data
            simp only [List.length_append, List.length_cons]
            omega
          rw [parseStringAux_ser s'.data rest _ hfuel, mkStrRes_some]
        | arr xs =>
          cases xs with
          | nil =>
            rw [serJ_arrNil] at hskip
            simp only [List.cons_append, List.nil_append] at hskip
            rw [parseValue_succ, hskip]
            show (match skipWs (93 :: rest) with
              | c2 :: r2 =>
                if c2 = 93 then some (.arr [], r2)
                else mkArrRes (parseElems f (c2 :: r2))
              | [] => mkArrRes (parseElems f [])) = some (.arr [], rest)
            rw [skipWs_not (by omega)]
            rfl
          | cons x t =>
            rw [serJ_arrCons] at hskip
            simp only [List.cons_append, List.append_assoc,
              List.singleton_append] at hskip
            rw [parseValue_succ, hskip]
            show (match skipWs (serJ x ++ (serElemsTail t ++ (93 :: rest))) with
              | c2 :: r2 =>
                if c2 = 93 then some (.arr [], r2)
                else mkArrRes (parseElems f (c2 :: r2))
              | [] => mkArrRes (parseElems f [])) = some (.arr (x :: t), rest)
            rw [skipWs_serJ_append]
            obtain ⟨c, cs, hser, hc⟩ := serJ_shape x
            rw [hser, List.cons_append]
            show (if c = 93 then
                some (.arr [], cs ++ (serElemsTail t ++ (93 :: rest)))
              else mkArrRes (parseElems f
                (c :: (cs ++ (serElemsTail t ++ (93 :: rest)))))) =
              some (.arr (x :: t), rest)
            rw [if_neg (by omega), ← List.cons_append, ← hser]
            have hbound : reqE (x :: t) < f := by
              rw [reqV_arr] at hreq
              omega
            rw [ihE x t _ rest hbound (skipWs_serJ_append x _), mkArrRes_some]
        | obj ms =>
          cases ms with
          | nil =>
            rw [serJ_objNil] at hskip
            simp only [List.cons_append, List.nil_append] at hskip
            rw [parseValue_succ, hskip]
            show (match skipWs (125 :: rest) with
              | c2 :: r2 =>
                if c2 = 125 then some (.obj [], r2)
                else mkObjRes (parseMembers f (c2 :: r2))
              | [] => mkObjRes (parseMembers f [])) = some (.obj [], rest)
            rw [skipWs_not (by omega)]
            rfl
          | cons m t =>
            rcases m with ⟨k, v⟩
            rw [serJ_objCons] at hskip
            simp only [List.cons_append, List.append_assoc,
              List.singleton_append] at hskip
            rw [parseValue_succ, hskip]
            show (match skipWs
                (serMember (k, v) ++ (serMembersTail t ++ (125 :: rest))) with
              | c2 :: r2 =>
                if c2 = 125 then some (.obj [], r2)
                else mkObjRes (parseMembers f (c2 :: r2))
              | [] => mkObjRes (parseMembers f [])) =
              some (.obj ((k, v) :: t), rest)
            rw [skipWs_serMember_append]
            obtain ⟨cs, hm⟩ := serMember_shape k v
            rw [hm, List.cons_append]
            show (if (34 : Nat) = 125 then
                some (.obj [], cs ++ (serMembersTail t ++ (125 :: rest)))
              else mkObjRes (parseMembers f
                (34 :: (cs ++ (serMembersTail t ++ (125 :: rest)))))) =
              some (.obj ((k, v) :: t), rest)
            rw [if_neg (by omega), ← List.cons_append, ← hm]
            have hbound : reqM ((k, v) :: t) < f := by
              rw [reqV_obj] at hreq
              omega
            rw [ihM k v t _ rest hbound (skipWs_serMember_append k v _),
              mkObjRes_some]
        | fnum =>
          rw [serJ_fnum] at hskip
          simp only [List.cons_append, List.nil_append] at hskip
          rw [parseValue_digitHead f s 48 (46 :: 48 :: rest) hskip (by omega),
            intDigits_zero, numTailP_pair, numTail_cons, if_pos rfl]
          show (if 48 ≤ 48 ∧ 48 ≤ 57 then
              fracExp (digitsLoop (48 - 48) rest)
            else none) = some (.fnum, rest)
          rw [if_pos (by omega : (48:Nat) ≤ 48 ∧ (48:Nat) ≤ 57),
            digitsLoop_notDigit _ (notNumCont_digitStart hnd),
            fracExp_notNumCont _ hnd]
      · -- parseElems on serialized elements
        intro x t s rest hreq hskip
        have hnd2 : notNumCont (serElemsTail t ++ (93 :: rest)) := by
          cases t with
          | nil =>
            rw [serElemsTail_nil, List.nil_append]
            exact notNumCont_cons _ (by omega) (by omega) (by omega) (by omega)
          | cons y t' =>
            rw [serElemsTail_cons]
            simp only [List.cons_append]
            exact notNumCont_cons _ (by omega) (by omega) (by omega) (by omega)
        have hbx : reqV x < f := by
          rw [reqE_cons] at hreq
          omega
        have hV : parseValue f s = some (x, serElemsTail t ++ (93 :: rest)) :=
          ihV x s _ hbx hskip hnd2
        rw [parseElems_succ, hV]
        cases t with
        | nil =>
          show (match skipWs (serElemsTail [] ++ (93 :: rest)) with
            | 44 :: r2 => consElemRes x (parseElems f r2)
            | 93 :: r2 => some ([x], r2)
            | _ => none) = some ([x], rest)
          rw [serElemsTail_nil, List.nil_append, skipWs_not (by omega)]
        | cons y t' =>
          show (match skipWs (serElemsTail (y :: t') ++ (93 :: rest)) with
            | 44 :: r2 => consElemRes x (parseElems f r2)
            | 93 :: r2 => some ([x], r2)
            | _ => none) = some (x :: y :: t', rest)
          rw [serElemsTail_cons]
          simp only [List.cons_append, List.append_assoc]
          rw [skipWs_not (by omega)]
          show consElemRes x (parseElems f
            (32 :: (serJ y ++ (serElemsTail t' ++ (93 :: rest))))) =
            some (x :: y :: t', rest)
          have hby : reqE (y :: t') < f := by
            rw [reqE_cons, reqE_cons] at hreq
            rw [reqE_cons]
            omega
          have hskip2 : skipWs
              (32 :: (serJ y ++ (serElemsTail t' ++ (93 :: rest)))) =
              serJ y ++ (serElemsTail t' ++ (93 :: rest)) := by
            rw [skipWs_space, skipWs_serJ_append]
          rw [ihE y t' _ rest hby hskip2, consElemRes_some]
      · -- parseMembers on serialized members
        intro k v t s rest hreq hskip
        rw [serMember_pair] at hskip
        simp only [serString, List.cons_append, List.append_assoc,
          List.singleton_append] at hskip
        rw [parseMembers_succ, hskip]
        show (match parseStringAux
            (k.data.flatMap (fun c => escChar c.toNat) ++
              (34 :: (58 :: 32 :: (serJ v ++
                (serMembersTail t ++ (125 :: rest)))))).length
            (k.data.flatMap (fun c => escChar c.toNat) ++
              (34 :: (58 :: 32 :: (serJ v ++
                (serMembersTail t ++ (125 :: rest)))))) with
          | some (cs, r1) =>
            (match skipWs r1 with
            | 58 :: r2 =>
              match parseValue f r2 with
              | some (v2, r3) =>
                (match skipWs r3 with
                | 44 :: r4 =>
                  consMemberRes (String.mk cs) v2 (parseMembers f r4)
                | 125 :: r4 => some ([(String.mk cs, v2)], r4)
                | _ => none)
              | none => none
            | _ => none)
          | none => none) = some ((k, v) :: t, rest)
        have hfuel : k.data.length + 1 ≤
            (k.data.flatMap (fun c => escChar c.toNat) ++
              (34 :: (58 :: 32 :: (serJ v ++
                (serMembersTail t ++ (125 :: rest)))))).length := by
          have := escBody_length k.data
          simp only [List.length_append, List.length_cons]
          omega
        rw [parseStringAux_ser k.data _ _ hfuel]
        show (match skipWs (58 :: 32 :: (serJ v ++
            (serMembersTail t ++ (125 :: rest)))) with
          | 58 :: r2 =>
            match parseValue f r2 with
            | some (v2, r3) =>
              (match skipWs r3 with
              | 44 :: r4 =>
                consMemberRes (String.mk k.data) v2 (parseMembers f r4)
              | 125 :: r4 => some ([(String.mk k.data, v2)], r4)
              | _ => none)
            | none => none
          | _ => none) = some ((k, v) :: t, rest)
        rw [skipWs_not (by omega)]
        show (match parseValue f (32 :: (serJ v ++
            (serMembersTail t ++ (125 :: rest)))) with
          | some (v2, r3) =>
            (match skipWs r3 with
            | 44 :: r4 =>
              consMemberRes (String.mk k.data) v2 (parseMembers f r4)
            | 125 :: r4 => some ([(String.mk k.data, v2)], r4)
            | _ => none)
          | none => none) = some ((k, v) :: t, rest)
        have hndv : notNumCont (serMembersTail t ++ (125 :: rest)) := by
          cases t with
          | nil =>
            rw [serMembersTail_nil, List.nil_append]
            exact notNumCont_cons _ (by omega) (by omega) (by omega) (by omega)
          | cons m2 t' =>
            rw [serMembersTail_cons]
            simp only [List.cons_append]
            exact notNumCont_cons _ (by omega) (by omega) (by omega) (by omega)
        have hbv : reqV v < f := by
          rw [reqM_cons] at hreq
          omega
        have hskipv : skipWs (32 :: (serJ v ++
            (serMembersTail t ++ (125 :: rest)))) =
            serJ v ++ (serMembersTail t ++ (125 :: rest)) := by
          rw [skipWs_space, skipWs_serJ_append]
        rw [ihV v _ _ hbv hskipv hndv]
        cases t with
        | nil =>
          show (match skipWs (serMembersTail [] ++ (125 :: rest)) with
            | 44 :: r4 =>
              consMemberRes (String.mk k.data) v (parseMembers f r4)
            | 125 :: r4 => some ([(String.mk k.data, v)], r4)
            | _ => none) = some ([(k, v)], rest)
          rw [serMembersTail_nil, List.nil_append, skipWs_not (by omega)]
        | cons m2 t' =>
          rcases m2 with ⟨k2, v2⟩
          show (match skipWs
              (serMembersTail ((k2, v2) :: t') ++ (125 :: rest)) with
            | 44 :: r4 =>
              consMemberRes (String.mk k.data) v (parseMembers f r4)
            | 125 :: r4 => some ([(String.mk k.data, v)], r4)
            | _ => none) = some ((k, v) :: (k2, v2) :: t', rest)
          rw [serMembersTail_cons]
          simp only [List.cons_append, List.append_assoc]
          rw [skipWs_not (by omega)]
          show consMemberRes (String.mk k.data) v (parseMembers f
            (32 :: (serMember (k2, v2) ++
              (serMembersTail t' ++ (125 :: rest))))) =
            some ((k, v) :: (k2, v2) :: t', rest)
          have hbm : reqM ((k2, v2) :: t') < f := by
            rw [reqM_cons, reqM_cons] at hreq
            rw [reqM_cons]
            omega
          have hskipm : skipWs (32 :: (serMember (k2, v2) ++
              (serMembersTail t' ++ (125 :: rest)))) =
              serMember (k2, v2) ++ (serMembersTail t' ++ (125 :: rest)) := by
            rw [skipWs_space, skipWs_serMember_append]
          rw [ihM k2 v2 t' _ rest hbm hskipm, consMemberRes_some]

theorem jsonParse_serJ (v : JValue) : jsonParse (serJ v) = some v := by
  have hreq : reqV v < (serJ v).length + 1 :=
    Nat.lt_succ_of_le (reqV_le_serLength v)
  have hskip : skipWs (serJ v) = serJ v ++ [] := by
    rw [List.append_nil]
    obtain ⟨c, cs, hser, hc⟩ := serJ_shape v
    rw [hser]
    exact skipWs_not (by omega) _
  have h := (parse_ser_master ((serJ v).length + 1)).1 v (serJ v) [] hreq
    hskip notNumCont_nil
  unfold jsonParse
  rw [h]
  show (if skipWs [] = [] then some v else none) = some v
  rw [if_pos skipWs_nil]

theorem from_string_ser_packet (m : Message) :
    Message.from_string (serJ (packetOf m)) = .ok m := by
  unfold Message.from_string
  rw [jsonParse_serJ (packetOf m)]
  rfl

/-- C2: the codec round-trip law. For every `Message` (whose fields are
JSON-representable by construction of the model), decoding the encoding
yields a `Message` with the same `source`, `type` and `data`:
`Message.from_bytes(m.encode())` succeeds and returns `m` itself. -/
theorem message_roundTrip (m : Message) :
    Message.from_bytes (Message.encode m) = .ok m := by
  unfold Message.encode Message.to_json
  rw [utf8Encode_ascii (serJ_ascii (packetOf m))]
  unfold Message.from_bytes
  rw [utf8Decode_ascii (serJ_ascii (packetOf m))]
  show Message.from_string (serJ (packetOf m)) = .ok m
  exact from_string_ser_packet m

/-! ### Decode error taxonomy (claims C3, C10) -/

/-- Python scalar shapes, on which `in` raises `TypeError`. -/
def isScalar : JValue → Bool
  | .null => true
  | .bool _ => true
  | .num _ => true
  | .fnum => true
  | _ => false

/-- Python container shapes, on which `in` is defined. -/
def isContainer : JValue → Bool
  | .obj _ => true
  | .arr _ => true
  | .str _ => true
  | _ => false

/-- Whether a decode result is an error at all. -/
def isErrorRes : Except PyErr Message → Bool
  | .error _ => true
  | _ => false

/-- Whether a decode result is specifically a `ValueError`. -/
def isValueError : Except PyErr Message → Bool
  | .error (.valueError _) => true
  | _ => false

theorem from_bytes_utf8None {b : List Nat} (h : utf8Decode b = none) :
    Message.from_bytes b = .error (.valueError ("Invalid utf-8.")) := by
  unfold Message.from_bytes
  rw [h]

theorem from_bytes_utf8Some {b t : List Nat} (h : utf8Decode b = some t) :
    Message.from_bytes b = Message.from_string t := by
  unfold Message.from_bytes
  rw [h]

theorem from_string_parseNone {t : List Nat} (h : jsonParse t = none) :
    Message.from_string t = .error (.valueError ("Invalid JSON.")) := by
  unfold Message.from_string
  rw [h]

theorem from_string_parseSome {t : List Nat} {p : JValue}
    (h : jsonParse t = some p) : Message.from_string t = parsePacket p := by
  unfold Message.from_string
  rw [h]

theorem requireField_error {p : JValue} {k : String} {e : PyErr}
    {next : Except PyErr Message} (h : pyContains p k = .error e) :
    requireField p k next = .error e := by
  unfold requireField
  rw [h]

theorem requireField_false {p : JValue} {k : String}
    {next : Except PyErr Message} (h : pyContains p k = .ok false) :
    requireField p k next =
      .error (.valueError ("Improperly formatted message.")) := by
  unfold requireField
  rw [h]

theorem requireField_true {p : JValue} {k : String}
    {next : Except PyErr Message} (h : pyContains p k = .ok true) :
    requireField p k next = next := by
  unfold requireField
  rw [h]

theorem pyContains_obj (fields : List (String × JValue)) (k : String) :
    pyContains (.obj fields) k = .ok (fields.any (fun f => f.1 == k)) := rfl

theorem pyContains_arr (xs : List JValue) (k : String) :
    pyContains (.arr xs) k = .ok (xs.any (fun x => x == .str k)) := rfl

theorem pyContains_str (s : String) (k : String) :
    pyContains (.str s) k = .ok (subOccurs k.data s.data) := rfl

theorem pyContains_scalar {p : JValue} (h : isScalar p = true) (k : String) :
    pyContains p k = .error (.typeError ("argument is not iterable")) := by
  cases p <;> first | rfl | (unfold isScalar at h; exact absurd h (by simp))

theorem pyGetItem_obj_of_any {fields : List (String × JValue)} {k : String}
    (h : fields.any (fun f => f.1 == k) = true) :
    ∃ v, pyGetItem (.obj fields) k = .ok v := by
  have hex : ∃ f ∈ fields.reverse, (f.1 == k) = true := by
    rw [List.any_eq_true] at h
    rcases h with ⟨f, hf, hp⟩
    exact ⟨f, List.mem_reverse.mpr hf, hp⟩
  have hsome : (fields.reverse.find? (fun f => f.1 == k)).isSome := by
    rw [List.find?_isSome]
    exact hex
  obtain ⟨f, hf⟩ := Option.isSome_iff_exists.mp hsome
  refine ⟨f.2, ?_⟩
  show (match fields.reverse.find? (fun f => f.1 == k) with
    | some f => Except.ok f.2
    | none => Except.error (PyErr.keyError k)) = Except.ok f.2
  rw [hf]

theorem buildMessage_obj {fields : List (String × JValue)}
    (h1 : fields.any (fun f => f.1 == kSource) = true)
    (h2 : fields.any (fun f => f.1 == kType) = true)
    (h3 : fields.any (fun f => f.1 == kData) = true) :
    ∃ m, buildMessage (.obj fields) = .ok m := by
  obtain ⟨v1, hv1⟩ := pyGetItem_obj_of_any h1
  obtain ⟨v2, hv2⟩ := pyGetItem_obj_of_any h2
  obtain ⟨v3, hv3⟩ := pyGetItem_obj_of_any h3
  refine ⟨⟨v1, v2, v3⟩, ?_⟩
  unfold buildMessage
  rw [hv1, hv2, hv3]

theorem buildMessage_arr (xs : List JValue) :
    buildMessage (.arr xs) =
      .error (.typeError ("list indices must be integers")) := rfl

theorem buildMessage_str (s : String) :
    buildMessage (.str s) =
      .error (.typeError ("string indices must be integers")) := rfl

theorem parsePacket_eq (p : JValue) :
    parsePacket p = requireField p kSource (requireField p kType
      (requireField p kData (buildMessage p))) := rfl

theorem parsePacket_scalar {p : JValue} (h : isScalar p = true) :
    parsePacket p = .error (.typeError ("argument is not iterable")) := by
  rw [parsePacket_eq, requireField_error (pyContains_scalar h kSource)]

theorem parsePacket_container_missing {p : JValue}
    (hc : isContainer p = true)
    (hmiss : pyContains p kSource = .ok false ∨
      pyContains p kType = .ok false ∨ pyContains p kData = .ok false) :
    parsePacket p = .error (.valueError ("Improperly formatted message.")) := by
  have hok : ∀ k, ∃ bl, pyContains p k = .ok bl := by
    intro k
    cases p <;> first
      | exact ⟨_, rfl⟩
      | (unfold isContainer at hc; exact absurd hc (by simp))
  obtain ⟨b1, hb1⟩ := hok kSource
  obtain ⟨b2, hb2⟩ := hok kType
  obtain ⟨b3, hb3⟩ := hok kData
  rw [parsePacket_eq]
  cases b1 with
  | false => rw [requireField_false hb1]
  | true =>
    rw [requireField_true hb1]
    cases b2 with
    | false => rw [requireField_false hb2]
    | true =>
      rw [requireField_true hb2]
      cases b3 with
      | false => rw [requireField_false hb3]
      | true =>
        exfalso
        rcases hmiss with hm | hm | hm
        · rw [hb1] at hm; simp at hm
        · rw [hb2] at hm; simp at hm
        · rw [hb3] at hm; simp at hm

theorem parsePacket_arr_pass {xs : List JValue}
    (h1 : xs.any (fun x => x == .str kSource) = true)
    (h2 : xs.any (fun x => x == .str kType) = true)
    (h3 : xs.any (fun x => x == .str kData) = true) :
    parsePacket (.arr xs) =
      .error (.typeError ("list indices must be integers")) := by
  rw [parsePacket_eq, requireField_true (by rw [pyContains_arr, h1]),
    requireField_true (by rw [pyContains_arr, h2]),
    requireField_true (by rw [pyContains_arr, h3]), buildMessage_arr]

theorem parsePacket_str_pass {s : String}
    (h1 : subOccurs kSource.data s.data = true)
    (h2 : subOccurs kType.data s.data = true)
    (h3 : subOccurs kData.data s.data = true) :
    parsePacket (.str s) =
      .error (.typeError ("string indices must be integers")) := by
  rw [parsePacket_eq, requireField_true (by rw [pyContains_str, h1]),
    requireField_true (by rw [pyContains_str, h2]),
    requireField_true (by rw [pyContains_str, h3]), buildMessage_str]

theorem parsePacket_obj_pass {fields : List (String × JValue)}
    (h1 : fields.any (fun f => f.1 == kSource) = true)
    (h2 : fields.any (fun f => f.1 == kType) = true)
    (h3 : fields.any (fun f => f.1 == kData) = true) :
    ∃ m, parsePacket (.obj fields) = .ok m := by
  rw [parsePacket_eq, requireField_true (by rw [pyContains_obj, h1]),
    requireField_true (by rw [pyContains_obj, h2]),
    requireField_true (by rw [pyContains_obj, h3])]
  exact buildMessage_obj h1 h2 h3

/-- The complete classification of one `Message.from_bytes` run: exactly
one of the seven source paths is taken — invalid UTF-8, invalid JSON, a
scalar document failing the membership test with `TypeError`, a
container missing a required field, an array or a string passing all
three membership tests but failing at subscripting with `TypeError`, or
an object with all three keys decoding successfully. -/
theorem from_bytes_classified (b : List Nat) :
    (utf8Decode b = none ∧
      Message.from_bytes b = .error (.valueError ("Invalid utf-8."))) ∨
    (∃ t, utf8Decode b = some t ∧ jsonParse t = none ∧
      Message.from_bytes b = .error (.valueError ("Invalid JSON."))) ∨
    (∃ t p, utf8Decode b = some t ∧ jsonParse t = some p ∧
      isScalar p = true ∧
      Message.from_bytes b =
        .error (.typeError ("argument is not iterable"))) ∨
    (∃ t p, utf8Decode b = some t ∧ jsonParse t = some p ∧
      isContainer p = true ∧
      (pyContains p kSource = .ok false ∨ pyContains p kType = .ok false ∨
        pyContains p kData = .ok false) ∧
      Message.from_bytes b =
        .error (.valueError ("Improperly formatted message."))) ∨
    (∃ t xs, utf8Decode b = some t ∧ jsonParse t = some (.arr xs) ∧
      Message.from_bytes b =
        .error (.typeError ("list indices must be integers"))) ∨
    (∃ t s, utf8Decode b = some t ∧ jsonParse t = some (.str s) ∧
      Message.from_bytes b =
        .error (.typeError ("string indices must be integers"))) ∨
    (∃ m, Message.from_bytes b = .ok m) := by
  rcases hu : utf8Decode b with _ | t
  · exact Or.inl ⟨rfl, from_bytes_utf8None hu⟩
  · rcases hp : jsonParse t with _ | p
    · exact Or.inr (Or.inl ⟨t, rfl, hp,
        by rw [from_bytes_utf8Some hu, from_string_parseNone hp]⟩)
    · have hfb : Message.from_bytes b = parsePacket p := by
        rw [from_bytes_utf8Some hu, from_string_parseSome hp]
      cases p with
      | null =>
        exact Or.inr (Or.inr (Or.inl ⟨t, .null, rfl, hp, rfl,
          by rw [hfb, parsePacket_scalar (by rfl)]⟩))
      | bool b2 =>
        exact Or.inr (Or.inr (Or.inl ⟨t, .bool b2, rfl, hp, rfl,
          by rw [hfb, parsePacket_scalar (by rfl)]⟩))
      | num n =>
        exact Or.inr (Or.inr (Or.inl ⟨t, .num n, rfl, hp, rfl,
          by rw [hfb, parsePacket_scalar (by rfl)]⟩))
      | fnum =>
        exact Or.inr (Or.inr (Or.inl ⟨t, .fnum, rfl, hp, rfl,
          by rw [hfb, parsePacket_scalar (by rfl)]⟩))
      | arr xs =>
        rcases hb1 : xs.any (fun x => x == .str kSource) with _ | _
        · exact Or.inr (Or.inr (Or.inr (Or.inl ⟨t, .arr xs, rfl, hp, rfl,
            Or.inl (by rw [pyContains_arr, hb1]),
            by rw [hfb, parsePacket_container_missing (by rfl)
              (Or.inl (by rw [pyContains_arr, hb1]))]⟩)))
        · rcases hb2 : xs.any (fun x => x == .str kType) with _ | _
          · exact Or.inr (Or.inr (Or.inr (Or.inl ⟨t, .arr xs, rfl, hp, rfl,
              Or.inr (Or.inl (by rw [pyContains_arr, hb2])),
              by rw [hfb, parsePacket_container_missing (by rfl)
                (Or.inr (Or.inl (by rw [pyContains_arr, hb2])))]⟩)))
          · rcases hb3 : xs.any (fun x => x == .str kData) with _ | _
            · exact Or.inr (Or.inr (Or.inr (Or.inl ⟨t, .arr xs, rfl, hp,
                rfl, Or.inr (Or.inr (by rw [pyContains_arr, hb3])),
                by rw [hfb, parsePacket_container_missing (by rfl)
                  (Or.inr (Or.inr (by rw [pyContains_arr, hb3])))]⟩)))
            · exact Or.inr (Or.inr (Or.inr (Or.inr (Or.inl ⟨t, xs, rfl, hp,
                by rw [hfb, parsePacket_arr_pass hb1 hb2 hb3]⟩))))
      | str s2 =>
        rcases hb1 : subOccurs kSource.data s2.data with _ | _
        · exact Or.inr (Or.inr (Or.inr (Or.inl ⟨t, .str s2, rfl, hp, rfl,
            Or.inl (by rw [pyContains_str, hb1]),
            by rw [hfb, parsePacket_container_missing (by rfl)
              (Or.inl (by rw [pyContains_str, hb1]))]⟩)))
        · rcases hb2 : subOccurs kType.data s2.data with _ | _
          · exact Or.inr (Or.inr (Or.inr (Or.inl ⟨t, .str s2, rfl, hp, rfl,
              Or.inr (Or.inl (by rw [pyContains_str, hb2])),
              by rw [hfb, parsePacket_container_missing (by rfl)
                (Or.inr (Or.inl (by rw [pyContains_str, hb2])))]⟩)))
          · rcases hb3 : subOccurs kData.data s2.data with _ | _
            · exact Or.inr (Or.inr (Or.inr (Or.inl ⟨t, .str s2, rfl, hp,
                rfl, Or.inr (Or.inr (by rw [pyContains_str, hb3])),
                by rw [hfb, parsePacket_container_missing (by rfl)
                  (Or.inr (Or.inr (by rw [pyContains_str, hb3])))]⟩)))
            · exact Or.inr (Or.inr (Or.inr (Or.inr (Or.inr (Or.inl ⟨t, s2,
                rfl, hp,
                by rw [hfb, parsePacket_str_pass hb1 hb2 hb3]⟩)))))
      | obj fields =>
        rcases hb1 : fields.any (fun f => f.1 == kSource) with _ | _
        · exact Or.inr (Or.inr (Or.inr (Or.inl ⟨t, .obj fields, rfl, hp,
            rfl, Or.inl (by rw [pyContains_obj, hb1]),
            by rw [hfb, parsePacket_container_missing (by rfl)
              (Or.inl (by rw [pyContains_obj, hb1]))]⟩)))
        · rcases hb2 : fields.any (fun f => f.1 == kType) with _ | _
          · exact Or.inr (Or.inr (Or.inr (Or.inl ⟨t, .obj fields, rfl, hp,
              rfl, Or.inr (Or.inl (by rw [pyContains_obj, hb2])),
              by rw [hfb, parsePacket_container_missing (by rfl)
                (Or.inr (Or.inl (by rw [pyContains_obj, hb2])))]⟩)))
          · rcases hb3 : fields.any (fun f => f.1 == kData) with _ | _
            · exact Or.inr (Or.inr (Or.inr (Or.inl ⟨t, .obj fields, rfl,
                hp, rfl, Or.inr (Or.inr (by rw [pyContains_obj, hb3])),
                by rw [hfb, parsePacket_container_missing (by rfl)
                  (Or.inr (Or.inr (by rw [pyContains_obj, hb3])))]⟩)))
            · obtain ⟨m, hm⟩ := parsePacket_obj_pass hb1 hb2 hb3
              exact Or.inr (Or.inr (Or.inr (Or.inr (Or.inr (Or.inr ⟨m,
                by rw [hfb, hm]⟩)))))

/-- C3 (amended): the failure taxonomy of `Message.from_bytes`. It fails
with `ValueError` when and only when the bytes are not valid UTF-8, the
decoded text is not valid JSON, or the parsed value is a container
(object, array, string) for which the Python membership test reports a
required field absent; a scalar top-level value (number, float, boolean,
null) instead fails with `TypeError` raised by the membership test; an
array or a string that passes all three membership tests fails with
`TypeError` at field subscripting; it succeeds exactly when the parsed
value is an object carrying all three required keys; and every run
returns either a complete `Message` or an error — never a
partially-parsed message. -/
theorem from_bytes_error_taxonomy (b : List Nat) :
    (utf8Decode b = none →
      Message.from_bytes b = .error (.valueError ("Invalid utf-8."))) ∧
    (∀ t, utf8Decode b = some t → jsonParse t = none →
      Message.from_bytes b = .error (.valueError ("Invalid JSON."))) ∧
    (∀ t p, utf8Decode b = some t → jsonParse t = some p →
      isScalar p = true →
      Message.from_bytes b =
        .error (.typeError ("argument is not iterable"))) ∧
    (∀ t p, utf8Decode b = some t → jsonParse t = some p →
      isContainer p = true →
      (pyContains p kSource = .ok false ∨ pyContains p kType = .ok false ∨
        pyContains p kData = .ok false) →
      Message.from_bytes b =
        .error (.valueError ("Improperly formatted message."))) ∧
    (∀ t xs, utf8Decode b = some t → jsonParse t = some (.arr xs) →
      xs.any (fun x => x == .str kSource) = true →
      xs.any (fun x => x == .str kType) = true →
      xs.any (fun x => x == .str kData) = true →
      Message.from_bytes b =
        .error (.typeError ("list indices must be integers"))) ∧
    (∀ t s, utf8Decode b = some t → jsonParse t = some (.str s) →
      subOccurs kSource.data s.data = true →
      subOccurs kType.data s.data = true →
      subOccurs kData.data s.data = true →
      Message.from_bytes b =
        .error (.typeError ("string indices must be integers"))) ∧
    (isValueError (Message.from_bytes b) = true ↔
      utf8Decode b = none ∨
      (∃ t, utf8Decode b = some t ∧ jsonParse t = none) ∨
      (∃ t p, utf8Decode b = some t ∧ jsonParse t = some p ∧
        isContainer p = true ∧
        (pyContains p kSource = .ok false ∨
          pyContains p kType = .ok false ∨
          pyContains p kData = .ok false))) ∧
    ((∃ m, Message.from_bytes b = .ok m) ↔
      ∃ t fields, utf8Decode b = some t ∧ jsonParse t = some (.obj fields) ∧
        fields.any (fun f => f.1 == kSource) = true ∧
        fields.any (fun f => f.1 == kType) = true ∧
        fields.any (fun f => f.1 == kData) = true) ∧
    ((∃ m, Message.from_bytes b = .ok m) ∨
      (∃ e, Message.from_bytes b = .error e)) := by
  refine ⟨?_, ?_, ?_, ?_, ?_, ?_, ?_, ?_, ?_⟩
  · exact fun h => from_bytes_utf8None h
  · intro t hu hp
    rw [from_bytes_utf8Some hu, from_string_parseNone hp]
  · intro t p hu hp hs
    rw [from_bytes_utf8Some hu, from_string_parseSome hp, parsePacket_scalar hs]
  · intro t p hu hp hc hmiss
    rw [from_bytes_utf8Some hu, from_string_parseSome hp,
      parsePacket_container_missing hc hmiss]
  · intro t xs hu hp h1 h2 h3
    rw [from_bytes_utf8Some hu, from_string_parseSome hp,
      parsePacket_arr_pass h1 h2 h3]
  · intro t s2 hu hp h1 h2 h3
    rw [from_bytes_utf8Some hu, from_string_parseSome hp,
      parsePacket_str_pass h1 h2 h3]
  · constructor
    · intro h
      rcases from_bytes_classified b with ⟨hu, hfb⟩ | ⟨t, hu, hp, hfb⟩ |
        ⟨t, p, hu, hp, hs, hfb⟩ | ⟨t, p, hu, hp, hc, hmiss, hfb⟩ |
        ⟨t, xs, hu, hp, hfb⟩ | ⟨t, s2, hu, hp, hfb⟩ | ⟨m, hfb⟩
      · exact Or.inl hu
      · exact Or.inr (Or.inl ⟨t, hu, hp⟩)
      · rw [hfb] at h
        exact absurd h (by decide)
      · exact Or.inr (Or.inr ⟨t, p, hu, hp, hc, hmiss⟩)
      · rw [hfb] at h
        exact absurd h (by decide)
      · rw [hfb] at h
        exact absurd h (by decide)
      · have hv : isValueError (.ok m) = false := rfl
        rw [hfb, hv] at h
        exact absurd h (by decide)
    · rintro (hu | ⟨t, hu, hp⟩ | ⟨t, p, hu, hp, hc, hmiss⟩)
      · rw [from_bytes_utf8None hu]
        rfl
      · rw [from_bytes_utf8Some hu, from_string_parseNone hp]
        rfl
      · rw [from_bytes_utf8Some hu, from_string_parseSome hp,
          parsePacket_container_missing hc hmiss]
        rfl
  · constructor
    · rintro ⟨m, hm⟩
      rcases hu : utf8Decode b with _ | t
      · rw [from_bytes_utf8None hu] at hm
        exact absurd hm (by simp)
      · rw [from_bytes_utf8Some hu] at hm
        rcases hp : jsonParse t with _ | p
        · rw [from_string_parseNone hp] at hm
          exact absurd hm (by simp)
        · rw [from_string_parseSome hp] at hm
          cases p with
          | null =>
            rw [parsePacket_scalar (by rfl)] at hm
            exact absurd hm (by simp)
          | bool b2 =>
            rw [parsePacket_scalar (by rfl)] at hm
            exact absurd hm (by simp)
          | num n =>
            rw [parsePacket_scalar (by rfl)] at hm
            exact absurd hm (by simp)
          | fnum =>
            rw [parsePacket_scalar (by rfl)] at hm
            exact absurd hm (by simp)
          | str s' =>
            rw [parsePacket_eq] at hm
            rcases hb1 : subOccurs kSource.data s'.data with _ | _
            · rw [requireField_false (by rw [pyContains_str, hb1])] at hm
              exact absurd hm (by simp)
            · rw [requireField_true (by rw [pyContains_str, hb1])] at hm
              rcases hb2 : subOccurs kType.data s'.data with _ | _
              · rw [requireField_false (by rw [pyContains_str, hb2])] at hm
                exact absurd hm (by simp)
              · rw [requireField_true (by rw [pyContains_str, hb2])] at hm
                rcases hb3 : subOccurs kData.data s'.data with _ | _
                · rw [requireField_false (by rw [pyContains_str, hb3])] at hm
                  exact absurd hm (by simp)
                · rw [requireField_true (by rw [pyContains_str, hb3]),
                    buildMessage_str] at hm
                  exact absurd hm (by simp)
          | arr xs =>
            rw [parsePacket_eq] at hm
            rcases hb1 : xs.any (fun x => x == .str kSource) with _ | _
            · rw [requireField_false (by rw [pyContains_arr, hb1])] at hm
              exact absurd hm (by simp)
            · rw [requireField_true (by rw [pyContains_arr, hb1])] at hm
              rcases hb2 : xs.any (fun x => x == .str kType) with _ | _
              · rw [requireField_false (by rw [pyContains_arr, hb2])] at hm
                exact absurd hm (by simp)
              · rw [requireField_true (by rw [pyContains_arr, hb2])] at hm
                rcases hb3 : xs.any (fun x => x == .str kData) with _ | _
                · rw [requireField_false (by rw [pyContains_arr, hb3])] at hm
                  exact absurd hm (by simp)
                · rw [requireField_true (by rw [pyContains_arr, hb3]),
                    buildMessage_arr] at hm
                  exact absurd hm (by simp)
          | obj fields =>
            rw [parsePacket_eq] at hm
            rcases hb1 : fields.any (fun f => f.1 == kSource) with _ | _
            · rw [requireField_false (by rw [pyContains_obj, hb1])] at hm
              exact absurd hm (by simp)
            · rw [requireField_true (by rw [pyContains_obj, hb1])] at hm
              rcases hb2 : fields.any (fun f => f.1 == kType) with _ | _
              · rw [requireField_false (by rw [pyContains_obj, hb2])] at hm
                exact absurd hm (by simp)
              · rw [requireField_true (by rw [pyContains_obj, hb2])] at hm
                rcases hb3 : fields.any (fun f => f.1 == kData) with _ | _
                · rw [requireField_false (by rw [pyContains_obj, hb3])] at hm
                  exact absurd hm (by simp)
                · exact ⟨t, fields, rfl, hp, hb1, hb2, hb3⟩
    · rintro ⟨t, fields, hu, hp, h1, h2, h3⟩
      rw [from_bytes_utf8Some hu, from_string_parseSome hp, parsePacket_eq,
        requireField_true (by rw [pyContains_obj, h1]),
        requireField_true (by rw [pyContains_obj, h2]),
        requireField_true (by rw [pyContains_obj, h3])]
      exact buildMessage_obj h1 h2 h3
  · rcases h : Message.from_bytes b with e | m
    · exact Or.inr ⟨e, rfl⟩
    · exact Or.inl ⟨m, rfl⟩

/-- The UTF-8 bytes of `["source", "type", "data"]`: an array passing
all three membership tests. -/
def arrPassBytes : List Nat :=
  [91, 34, 115, 111, 117, 114, 99, 101, 34, 44, 32, 34, 116, 121, 112,
   101, 34, 44, 32, 34, 100, 97, 116, 97, 34, 93]

/-- The UTF-8 bytes of `"sourcetypedata"` (a JSON string document): a
string containing all three keys as substrings. -/
def strPassBytes : List Nat :=
  [34, 115, 111, 117, 114, 99, 101, 116, 121, 112, 101, 100, 97, 116,
   97, 34]

/-- Witness: every failure class of the taxonomy at a concrete input:
the byte 0xFF is not UTF-8; `05` is rejected by the JSON scanner (a
leading zero ends the numeral, leaving extra data); `5` parses to a
scalar and raises TypeError at the membership test; `[]` is a container
missing the keys; `["source", "type", "data"]` passes membership and
raises TypeError at subscripting, as does the string document
`"sourcetypedata"`. -/
theorem from_bytes_error_taxonomy_witness :
    Message.from_bytes [255] = .error (.valueError ("Invalid utf-8.")) ∧
    Message.from_bytes [48, 53] = .error (.valueError ("Invalid JSON.")) ∧
    Message.from_bytes [53] =
      .error (.typeError ("argument is not iterable")) ∧
    Message.from_bytes [91, 93] =
      .error (.valueError ("Improperly formatted message.")) ∧
    Message.from_bytes arrPassBytes =
      .error (.typeError ("list indices must be integers")) ∧
    Message.from_bytes strPassBytes =
      .error (.typeError ("string indices must be integers")) :=
  ⟨(from_bytes_error_taxonomy [255]).1 rfl,
    (from_bytes_error_taxonomy [48, 53]).2.1 [48, 53] rfl rfl,
    (from_bytes_error_taxonomy [53]).2.2.1 [53] (.num 5) rfl rfl rfl,
    (from_bytes_error_taxonomy [91, 93]).2.2.2.1 [91, 93] (.arr [])
      rfl rfl rfl (Or.inl rfl),
    (from_bytes_error_taxonomy arrPassBytes).2.2.2.2.1 arrPassBytes
      [.str "source", .str "type", .str "data"] rfl rfl rfl rfl rfl,
    (from_bytes_error_taxonomy strPassBytes).2.2.2.2.2.1 strPassBytes
      "sourcetypedata" rfl rfl rfl rfl rfl⟩

/-- Counterexample to C3 as stated: the input `b"5"` is valid UTF-8 and
valid JSON whose parsed value has none of the three required fields, yet
`from_bytes` does not fail with a `ValueError` — the failure is a
`TypeError` escaping the claimed taxonomy. -/
theorem from_bytes_scalar_not_valueError :
    isErrorRes (Message.from_bytes [53]) = true ∧
    isValueError (Message.from_bytes [53]) = false := ⟨rfl, rfl⟩

/-- C10: `Message.from_bytes` raises `ValueError` only for non-UTF-8
input, invalid JSON, and parsed container values for which the
membership test reports a required key missing; every input that is
valid UTF-8 and valid JSON with a non-container scalar top-level value —
concretely `b"5"`, `b"true"` and the float document `b"1.5"` — instead
fails with `TypeError` from the membership test, escaping the documented
decode-error taxonomy. -/
theorem from_bytes_scalar_typeError :
    (∀ b, isValueError (Message.from_bytes b) = true →
      utf8Decode b = none ∨
      (∃ t, utf8Decode b = some t ∧ jsonParse t = none) ∨
      (∃ t p, utf8Decode b = some t ∧ jsonParse t = some p ∧
        isContainer p = true ∧
        (pyContains p kSource = .ok false ∨ pyContains p kType = .ok false ∨
          pyContains p kData = .ok false))) ∧
    (∀ b t p, utf8Decode b = some t → jsonParse t = some p →
      isScalar p = true →
      Message.from_bytes b =
        .error (.typeError ("argument is not iterable"))) ∧
    Message.from_bytes [53] =
      .error (.typeError ("argument is not iterable")) ∧
    Message.from_bytes [116, 114, 117, 101] =
      .error (.typeError ("argument is not iterable")) ∧
    Message.from_bytes [49, 46, 53] =
      .error (.typeError ("argument is not iterable")) := by
  refine ⟨?_, ?_, rfl, rfl, rfl⟩
  · intro b h
    rcases from_bytes_classified b with ⟨hu, hfb⟩ | ⟨t, hu, hp, hfb⟩ |
      ⟨t, p, hu, hp, hs, hfb⟩ | ⟨t, p, hu, hp, hc, hmiss, hfb⟩ |
      ⟨t, xs, hu, hp, hfb⟩ | ⟨t, s2, hu, hp, hfb⟩ | ⟨m, hfb⟩
    · exact Or.inl hu
    · exact Or.inr (Or.inl ⟨t, hu, hp⟩)
    · rw [hfb] at h
      exact absurd h (by decide)
    · exact Or.inr (Or.inr ⟨t, p, hu, hp, hc, hmiss⟩)
    · rw [hfb] at h
      exact absurd h (by decide)
    · rw [hfb] at h
      exact absurd h (by decide)
    · have hv : isValueError (.ok m) = false := rfl
      rw [hfb, hv] at h
      exact absurd h (by decide)
  · intro b t p hu hp hs
    rw [from_bytes_utf8Some hu, from_string_parseSome hp,
      parsePacket_scalar hs]

/-- Witness: the ValueError-only-when clause of C10 applied at the
non-UTF-8 input `[255]` (whose failure is a ValueError), and the general
scalar clause applied at `b"true"`, whose parsed value is the boolean
scalar. -/
theorem from_bytes_scalar_typeError_witness :
    (utf8Decode [255] = none ∨
      (∃ t, utf8Decode [255] = some t ∧ jsonParse t = none) ∨
      (∃ t p, utf8Decode [255] = some t ∧ jsonParse t = some p ∧
        isContainer p = true ∧
        (pyContains p kSource = .ok false ∨ pyContains p kType = .ok false ∨
          pyContains p kData = .ok false))) ∧
    Message.from_bytes [116, 114, 117, 101] =
      .error (.typeError ("argument is not iterable")) :=
  ⟨from_bytes_scalar_typeError.1 [255] rfl,
    from_bytes_scalar_typeError.2.1 [116, 114, 117, 101]
      [116, 114, 117, 101] (.bool true) rfl rfl rfl⟩

/-! ### SHA-256 and key_to_multicast (net.py)

`key_to_multicast` derives a multicast group and port from
`sha256(key.encode()).digest()`. The hash is embedded in full (FIPS 180-4),
with 32-bit words as naturals reduced mod `2 ^ 32`. The Python function
returns `str(ip_address(addr))`; the embedding returns the address bytes
themselves, the dotted/hex text form being presentation only. -/

/-- The 32-bit word modulus. -/
def w32 : Nat := 4294967296

/-- Right rotation of a 32-bit word. -/
def rotr32 (n x : Nat) : Nat := ((x >>> n) ||| (x <<< (32 - n))) % w32

/-- Bitwise complement of a 32-bit word. -/
def not32 (x : Nat) : Nat := x ^^^ 4294967295

/-- The SHA-256 choice function. -/
def ch32 (x y z : Nat) : Nat := (x &&& y) ^^^ (not32 x &&& z)

/-- The SHA-256 majority function. -/
def maj32 (x y z : Nat) : Nat := (x &&& y) ^^^ (x &&& z) ^^^ (y &&& z)

/-- The SHA-256 compression sigma functions. -/
def bigSigma0 (x : Nat) : Nat := rotr32 2 x ^^^ rotr32 13 x ^^^ rotr32 22 x

/-- The SHA-256 compression sigma functions. -/
def bigSigma1 (x : Nat) : Nat := rotr32 6 x ^^^ rotr32 11 x ^^^ rotr32 25 x

/-- The SHA-256 schedule sigma functions. -/
def smallSigma0 (x : Nat) : Nat := rotr32 7 x ^^^ rotr32 18 x ^^^ (x >>> 3)

/-- The SHA-256 schedule sigma functions. -/
def smallSigma1 (x : Nat) : Nat := rotr32 17 x ^^^ rotr32 19 x ^^^ (x >>> 10)

/-- The 64 SHA-256 round constants. -/
def shaK : List Nat := [
  1116352408, 1899447441, 3049323471, 3921009573,
  961987163, 1508970993, 2453635748, 2870763221,
  3624381080, 310598401, 607225278, 1426881987,
  1925078388, 2162078206, 2614888103, 3248222580,
  3835390401, 4022224774, 264347078, 604807628,
  770255983, 1249150122, 1555081692, 1996064986,
  2554220882, 2821834349, 2952996808, 3210313671,
  3336571891, 3584528711, 113926993, 338241895,
  666307205, 773529912, 1294757372, 1396182291,
  1695183700, 1986661051, 2177026350, 2456956037,
  2730485921, 2820302411, 3259730800, 3345764771,
  3516065817, 3600352804, 4094571909, 275423344,
  430227734, 506948616, 659060556, 883997877,
  958139571, 1322822218, 1537002063, 1747873779,
  1955562222, 2024104815, 2227730452, 2361852424,
  2428436474, 2756734187, 3204031479, 3329325298]

/-- The SHA-256 working state (eight 32-bit words). -/
structure Sha256State where
  a : Nat
  b : Nat
  c : Nat
  d : Nat
  e : Nat
  f : Nat
  g : Nat
  h : Nat

/-- The SHA-256 initial hash value. -/
def shaInit : Sha256State :=
  ⟨1779033703, 3144134277, 1013904242, 2773480762,
    1359893119, 2600822924, 528734635, 1541459225⟩

/-- One step of the message-schedule extension; the schedule is kept
reversed (most recent word first). -/
def schedStep (rev : List Nat) : List Nat :=
  ((smallSigma1 (rev.getD 1 0) + rev.getD 6 0 + smallSigma0 (rev.getD 14 0) +
    rev.getD 15 0) % w32) :: rev

/-- Iterate the schedule extension. -/
def extendSched : Nat → List Nat → List Nat
  | 0, rev => rev
  | n + 1, rev => extendSched n (schedStep rev)

/-- The 64-entry message schedule of one block (given as 16 words). -/
def schedule (ws : List Nat) : List Nat := (extendSched 48 ws.reverse).reverse

/-- One SHA-256 compression round. -/
def shaRound (s : Sha256State) (k w : Nat) : Sha256State :=
  let t1 := (s.h + bigSigma1 s.e + ch32 s.e s.f s.g + k + w) % w32
  let t2 := (bigSigma0 s.a + maj32 s.a s.b s.c) % w32
  ⟨(t1 + t2) % w32, s.a, s.b, s.c, (s.d + t1) % w32, s.e, s.f, s.g⟩

/-- Compress one 16-word block into the running state. -/
def compress (s0 : Sha256State) (block : List Nat) : Sha256State :=
  let s := (shaK.zip (schedule block)).foldl
    (fun st kw => shaRound st kw.1 kw.2) s0
  ⟨(s0.a + s.a) % w32, (s0.b + s.b) % w32, (s0.c + s.c) % w32,
    (s0.d + s.d) % w32, (s0.e + s.e) % w32, (s0.f + s.f) % w32,
    (s0.g + s.g) % w32, (s0.h + s.h) % w32⟩

/-- The eight-byte big-endian length field of the padding. -/
def lenBytes64 (n : Nat) : List Nat :=
  [(n >>> 56) % 256, (n >>> 48) % 256, (n >>> 40) % 256, (n >>> 32) % 256,
   (n >>> 24) % 256, (n >>> 16) % 256, (n >>> 8) % 256, n % 256]

/-- SHA-256 padding: a 0x80 byte, zeros to 56 mod 64, and the bit length. -/
def shaPad (msg : List Nat) : List Nat :=
  msg ++ (128 :: List.replicate ((64 - (msg.length + 9) % 64) % 64) 0) ++
    lenBytes64 (8 * msg.length)

/-- Split into 64-byte blocks; fuel at least the length suffices. -/
def chunks64 : Nat → List Nat → List (List Nat)
  | 0, _ => []
  | _, [] => []
  | fuel + 1, l => l.take 64 :: chunks64 fuel (l.drop 64)

/-- Big-endian 4-byte groups into 32-bit words. -/
def toWords : List Nat → List Nat
  | b0 :: b1 :: b2 :: b3 :: rest =>
    (((b0 * 256 + b1) * 256 + b2) * 256 + b3) :: toWords rest
  | _ => []

/-- Big-endian bytes of one 32-bit word. -/
def wordBytes (w : Nat) : List Nat :=
  [(w >>> 24) % 256, (w >>> 16) % 256, (w >>> 8) % 256, w % 256]

/-- The final SHA-256 state: compress every padded block in order. -/
def shaFinal (msg : List Nat) : Sha256State :=
  (chunks64 (shaPad msg).length (shaPad msg)).foldl
    (fun st b => compress st (toWords b)) shaInit

/-- `hashlib.sha256(msg).digest()` over a byte list. -/
def sha256 (msg : List Nat) : List Nat :=
  wordBytes (shaFinal msg).a ++ wordBytes (shaFinal msg).b ++
    wordBytes (shaFinal msg).c ++ wordBytes (shaFinal msg).d ++
    wordBytes (shaFinal msg).e ++ wordBytes (shaFinal msg).f ++
    wordBytes (shaFinal msg).g ++ wordBytes (shaFinal msg).h

/-- The local `digest` of `key_to_multicast`:
`sha256(key.encode()).digest()`. -/
def multiDigest (key : String) : List Nat := sha256 (utf8Encode (strCodes key))

/-- The local `port` of `key_to_multicast`: the first two digest bytes as
a little-endian 16-bit integer, OR `0xC000`. -/
def multiPort (key : String) : Nat :=
  ((multiDigest key).getD 0 0 + 256 * (multiDigest key).getD 1 0) ||| 49152

/-- `key_to_multicast(key, family)` from net.py: hash the UTF-8 key, take
the first two digest bytes little-endian OR `0xC000` as the port, and
build the multicast address from a fixed prefix plus digest bytes
(`digest[3:4]` for IPv4 after `224.0.0`, `digest[3:15]` for IPv6 after
`ff13:0000`); an unknown family raises `ValueError`. The address is
returned as its bytes (`ip_address` rendering is presentation only). -/
def key_to_multicast (key : String) (family : String) :
    Except String (List Nat × Nat) :=
  if family = "ipv4" then
    .ok ([224, 0, 0] ++ ((multiDigest key).drop 3).take 1, multiPort key)
  else if family = "ipv6" then
    .ok ([255, 19, 0, 0] ++ ((multiDigest key).drop 3).take 12, multiPort key)
  else .error ("unknown family")

/-- The widely published SHA-256 digest of `"abc"`, as a check that the
embedded hash is the real function. -/
theorem sha256_abc : sha256 [97, 98, 99] =
    [186, 120, 22, 191, 143, 1, 207, 234, 65, 65, 64, 222, 93, 174, 34, 35,
     176, 3, 97, 163, 150, 23, 122, 156, 180, 16, 255, 97, 242, 0, 21, 173] :=
  by rfl

theorem le_or_right (x y : Nat) : y ≤ x ||| y := by
  induction y using Nat.strong_induction_on generalizing x with
  | _ y ih =>
    rcases Nat.eq_zero_or_pos y with h0 | hpos
    · subst h0
      exact Nat.zero_le _
    · have hdiv : y / 2 < y := Nat.div_lt_self hpos (by omega)
      have h1 : y / 2 ≤ (x ||| y) / 2 := by
        rw [Nat.or_div_two]
        exact ih (y / 2) hdiv (x / 2)
      have h2 : y % 2 ≤ (x ||| y) % 2 := by
        rcases Nat.mod_two_eq_zero_or_one y with h | h
        · rw [h]
          exact Nat.zero_le _
        · have hx : (x ||| y) % 2 = 1 := Nat.or_mod_two_eq_one.mpr (Or.inr h)
          omega
      have hy := Nat.div_add_mod y 2
      have hxy := Nat.div_add_mod (x ||| y) 2
      omega

theorem wordBytes_lt (w : Nat) : ∀ c ∈ wordBytes w, c < 256 := by
  intro c hc
  simp only [wordBytes, List.mem_cons, List.not_mem_nil, or_false] at hc
  rcases hc with rfl | rfl | rfl | rfl <;> exact Nat.mod_lt _ (by omega)

theorem mem_append_lt {l1 l2 : List Nat} (h1 : ∀ c ∈ l1, c < 256)
    (h2 : ∀ c ∈ l2, c < 256) : ∀ c ∈ l1 ++ l2, c < 256 := by
  intro c hc
  rcases List.mem_append.mp hc with h | h
  · exact h1 c h
  · exact h2 c h

theorem stateBytes_lt (s : Sha256State) : ∀ c ∈
    wordBytes s.a ++ wordBytes s.b ++ wordBytes s.c ++ wordBytes s.d ++
    wordBytes s.e ++ wordBytes s.f ++ wordBytes s.g ++ wordBytes s.h,
    c < 256 :=
  mem_append_lt (mem_append_lt (mem_append_lt (mem_append_lt (mem_append_lt
    (mem_append_lt (mem_append_lt (wordBytes_lt _) (wordBytes_lt _))
    (wordBytes_lt _)) (wordBytes_lt _)) (wordBytes_lt _)) (wordBytes_lt _))
    (wordBytes_lt _)) (wordBytes_lt _)

theorem sha256_eq (msg : List Nat) : sha256 msg =
    wordBytes (shaFinal msg).a ++ wordBytes (shaFinal msg).b ++
    wordBytes (shaFinal msg).c ++ wordBytes (shaFinal msg).d ++
    wordBytes (shaFinal msg).e ++ wordBytes (shaFinal msg).f ++
    wordBytes (shaFinal msg).g ++ wordBytes (shaFinal msg).h := rfl

theorem sha256_bytes_lt (msg : List Nat) : ∀ b ∈ sha256 msg, b < 256 := by
  rw [sha256_eq]
  exact stateBytes_lt (shaFinal msg)

theorem wordBytes_length (w : Nat) : (wordBytes w).length = 4 := rfl

theorem sha256_length (msg : List Nat) : (sha256 msg).length = 32 := by
  rw [sha256_eq]
  simp [List.length_append, wordBytes_length]

theorem getD_lt_256 {l : List Nat} (hl : ∀ b ∈ l, b < 256) (i : Nat) :
    l.getD i 0 < 256 := by
  rw [List.getD_eq_getElem?_getD]
  by_cases h : i < l.length
  · rw [List.getElem?_eq_getElem h]
    exact hl _ (List.getElem_mem h)
  · rw [List.getElem?_eq_none (by omega)]
    simp

theorem multiPort_range (key : String) :
    49152 ≤ multiPort key ∧ multiPort key ≤ 65535 := by
  have hbytes := sha256_bytes_lt (utf8Encode (strCodes key))
  have h0 : (multiDigest key).getD 0 0 < 256 := getD_lt_256 hbytes 0
  have h1 : (multiDigest key).getD 1 0 < 256 := getD_lt_256 hbytes 1
  constructor
  · exact le_or_right _ 49152
  · have hlt : multiPort key < 2 ^ 16 := by
      apply Nat.or_lt_two_pow
      · omega
      · omega
    omega

/-- C1: `key_to_multicast` is deterministic (a pure function of key and
family: two calls with the same arguments return the identical pair), the
port always lies in the ephemeral range 49152–65535, and the address is a
valid multicast address of the requested family: for IPv4, of the form
`224.0.0.x` with a digest byte `x`; for IPv6, the prefix bytes
`ff13:0000` followed by twelve digest bytes. Stated over both accepted
family strings, with no hypotheses. -/
theorem key_to_multicast_spec (key : String) :
    (key_to_multicast key "ipv4" = key_to_multicast key "ipv4" ∧
      key_to_multicast key "ipv6" = key_to_multicast key "ipv6") ∧
    (∃ x, x < 256 ∧
      key_to_multicast key "ipv4" =
        .ok ([224, 0, 0, x], multiPort key)) ∧
    (∃ tail, tail.length = 12 ∧ (∀ b ∈ tail, b < 256) ∧
      key_to_multicast key "ipv6" =
        .ok ([255, 19, 0, 0] ++ tail, multiPort key)) ∧
    49152 ≤ multiPort key ∧ multiPort key ≤ 65535 := by
  have hlen : (multiDigest key).length = 32 :=
    sha256_length (utf8Encode (strCodes key))
  have hbytes : ∀ b ∈ multiDigest key, b < 256 :=
    sha256_bytes_lt (utf8Encode (strCodes key))
  refine ⟨⟨rfl, rfl⟩, ?_, ?_, multiPort_range key⟩
  · refine ⟨(multiDigest key).getD 3 0, getD_lt_256 hbytes 3, ?_⟩
    unfold key_to_multicast
    rw [if_pos rfl]
    have h3 : 3 < (multiDigest key).length := by omega
    rw [List.drop_eq_getElem_cons h3]
    have : (multiDigest key)[3] = (multiDigest key).getD 3 0 := by
      rw [List.getD_eq_getElem?_getD, List.getElem?_eq_getElem h3]
      rfl
    rw [this]
    rfl
  · refine ⟨((multiDigest key).drop 3).take 12, ?_, ?_, ?_⟩
    · rw [List.length_take, List.length_drop, hlen]
      decide
    · intro b hb
      exact hbytes b (List.mem_of_mem_drop (List.mem_of_mem_take hb))
    · unfold key_to_multicast
      rw [if_neg (by simp), if_pos rfl]

/-! ## Topic dispatch: `fnmatch` globs and the publish/send callbacks

`Router._publish_callback` matches each subscription pattern against the
fully qualified topic with `fnmatch.fnmatch(topic, key)` and spawns one
task per match, then awaits every registered message callback in order.
`Router._send_callback` is a verbatim copy of that body.  The glob
matcher below covers the pattern forms the router uses: `*` (any
sequence), `?` (any single character) and literal characters. -/

/-- Fuel-driven shell-glob matcher on code-point lists: pattern `*`
matches any (possibly empty) sequence, `?` any single character, and
anything else only itself.  Fuel decreases at every call; pattern plus
string length bounds the recursion. -/
def globAux : Nat → List Char → List Char → Bool
  | 0, _, _ => false
  | _ + 1, [], s => s.isEmpty
  | f + 1, p :: ps, s =>
    if p = '*' then
      match s with
      | [] => globAux f ps []
      | c :: s2 => globAux f ps (c :: s2) || globAux f ('*' :: ps) s2
    else
      match s with
      | [] => false
      | c :: s2 => (p = '?' || p = c) && globAux f ps s2

/-- `fnmatch.fnmatch(name, pat)` (POSIX case rules, so `normcase` is the
identity) for bracket-free patterns. -/
def fnmatchB (nm pat : String) : Bool :=
  globAux (pat.length + nm.length + 1) pat.data nm.data

/-- The key `'topic'` of a publish payload. -/
def kTopic : String := "topic"

/-- The subscriptions whose glob pattern matches a topic, in registration
order — exactly the loop iterations of `_publish_callback` that spawn a
handler task. -/
def matchedSubs (subs : List (String × Nat)) (t : String) :
    List (String × Nat) :=
  subs.filter (fun sub => fnmatchB t sub.1)

/-- `Router._publish_callback(other, msg)`: reads `msg.data['topic']` and
`msg.data['data']` (propagating their Python errors in evaluation order),
then spawns one task per glob-matching subscription and awaits every
message callback in list order.  The result records which subscriptions
spawned a task and which message callbacks were awaited.  A non-string
topic reaches `fnmatch` only when at least one subscription exists, and
then raises `TypeError` from `os.path.normcase`. -/
def publish_callback (subs : List (String × Nat)) (mcbs : List Nat)
    (msg : Message) : Except PyErr (List (String × Nat) × List Nat) :=
  match pyGetItem msg.data kTopic with
  | .error e => .error e
  | .ok topicV =>
    match pyGetItem msg.data kData with
    | .error e => .error e
    | .ok _ =>
      match topicV with
      | .str t => .ok (matchedSubs subs t, mcbs)
      | _ =>
        if subs.isEmpty then .ok ([], mcbs)
        else .error (.typeError ("expected str, bytes or os.PathLike object"))

/-- `Router._send_callback(other, msg)`: the source is a line-for-line
copy of `_publish_callback` (the code notes this itself). -/
def send_callback (subs : List (String × Nat)) (mcbs : List Nat)
    (msg : Message) : Except PyErr (List (String × Nat) × List Nat) :=
  match pyGetItem msg.data kTopic with
  | .error e => .error e
  | .ok topicV =>
    match pyGetItem msg.data kData with
    | .error e => .error e
    | .ok _ =>
      match topicV with
      | .str t => .ok (matchedSubs subs t, mcbs)
      | _ =>
        if subs.isEmpty then .ok ([], mcbs)
        else .error (.typeError ("expected str, bytes or os.PathLike object"))

/-- A publish message with fully qualified topic `rover/blarg`. -/
def demoPublish : Message :=
  { source := .str "rover", type := .str "publish",
    data := .obj [(kTopic, .str "rover/blarg"), (kData, .null)] }

/-- C6: topic dispatch matches each subscription glob against the fully
qualified topic: `rover/*` matches `rover/blarg` and not `tester/blarg`;
for the publish of `rover/blarg` with overlapping subscriptions
`rover/*` and `*/blarg`, both handlers fire (each exactly once); in
general a dispatch spawns each subscription entry exactly as often as it
occurs in the registration list when its pattern matches, and never
otherwise, and the dispatch of a well-formed publish payload is exactly
the matching subscriptions plus all message callbacks. -/
theorem glob_dispatch_spec :
    (fnmatchB "rover/blarg" "rover/*" = true ∧
      fnmatchB "tester/blarg" "rover/*" = false) ∧
    publish_callback [("rover/*", 1), ("*/blarg", 2)] [7] demoPublish =
      .ok ([("rover/*", 1), ("*/blarg", 2)], [7]) ∧
    (∀ (subs : List (String × Nat)) (t : String) (pr : String × Nat),
      (matchedSubs subs t).count pr =
        if fnmatchB t pr.1 then subs.count pr else 0) ∧
    (∀ (subs : List (String × Nat)) (mcbs : List Nat)
        (src ty d : JValue) (t : String),
      publish_callback subs mcbs ⟨src, ty, .obj [(kTopic, .str t), (kData, d)]⟩ =
        .ok (matchedSubs subs t, mcbs)) := by
  refine ⟨⟨rfl, rfl⟩, rfl, ?_, ?_⟩
  · intro subs t pr
    by_cases h : fnmatchB t pr.1 = true
    · rw [if_pos h]
      exact List.count_filter h
    · rw [if_neg h]
      rw [List.count_eq_zero]
      intro hmem
      have hf : (fun sub : String × Nat => fnmatchB t sub.1) pr = true :=
        List.of_mem_filter (p := fun sub : String × Nat => fnmatchB t sub.1)
          hmem
      exact h hf
  · intro subs mcbs src ty d t
    rfl

/-- C9: the dispatch of a `send`-type message is the same function as the
dispatch of a `publish`-type message: `_send_callback` and
`_publish_callback` agree on every subscription list, message-callback
list and message. -/
theorem send_callback_eq_publish_callback :
    send_callback = publish_callback := rfl

/-! ## `Router.route_message`

The entry point for externally sourced messages.  Its body is an
`if`/`elif` chain on `msg.type`: the `'publish'` arm calls
`self.publish(msg.data['topic'], msg.data['data'])`, while the `'send'`,
`'request'` and `'heartbeat'` arms are all `pass`, and an unmatched type
falls through — so everything except `'publish'` performs no action.
The model stops at the method-call boundary: the observable action is
either a call of `publish` with the extracted topic and data, or
nothing. -/

/-- The action `route_message` performs on a message. -/
inductive RouteAction where
  | callPublish (topic : JValue) (data : JValue)
  | noop
deriving Repr

/-- `Router.route_message(msg)` from router.py: on a `'publish'`-type
message, read `msg.data['topic']` and `msg.data['data']` (in that order,
propagating their Python errors) and call `self.publish` with them; on
any other type — including `'send'`, `'request'` and `'heartbeat'`,
whose branches are `pass` — do nothing. -/
def route_message (msg : Message) : Except PyErr RouteAction :=
  if msg.type == .str "publish" then
    match pyGetItem msg.data kTopic with
    | .error e => .error e
    | .ok topicV =>
      match pyGetItem msg.data kData with
      | .error e => .error e
      | .ok dataV => .ok (.callPublish topicV dataV)
  else .ok .noop

/-- C7 (counterexample): a `'heartbeat'`-type message routed through
`route_message` does not update the peer table, and a `'send'`-type
message is not dispatched: both hit a `pass` branch and produce no
action, contrary to the claim that they are re-dispatched into the same
handling as network arrivals. -/
theorem route_message_non_publish_noop :
    route_message
      { source := .str "dev", type := .str "heartbeat",
        data := .obj [(kSource, .str "dev"), ("listen", .num 1234)] } =
      .ok .noop ∧
    route_message
      { source := .str "dev", type := .str "send",
        data := .obj [(kTopic, .str "dev/t"), (kData, .null)] } =
      .ok .noop :=
  ⟨rfl, rfl⟩

/-- C7 (amended): `route_message` re-dispatches only `'publish'`-type
messages — such a message is re-published with the topic and data
extracted from its payload; `'send'`-, `'request'`- and
`'heartbeat'`-type messages are recognized branches whose bodies are
`pass`, so they (like any unknown type) are acted on as no-ops. -/
theorem route_message_spec :
    (∀ src d t, route_message
        { source := src, type := .str "publish",
          data := .obj [(kTopic, t), (kData, d)] } =
      .ok (.callPublish t d)) ∧
    (∀ src d, route_message { source := src, type := .str "send", data := d } =
      .ok .noop) ∧
    (∀ src d, route_message
        { source := src, type := .str "request", data := d } = .ok .noop) ∧
    (∀ src d, route_message
        { source := src, type := .str "heartbeat", data := d } = .ok .noop) :=
  ⟨fun _ _ _ => rfl, fun _ _ => rfl, fun _ _ => rfl, fun _ _ => rfl⟩

/-! ## The discovery receive loop (`Caster._recv_daemon`)

Each iteration awaits `self._recv()`, drops the message if its type has
no registered callback (`continue`), drops it if its source equals the
channel's own uuid (`continue`), and otherwise spawns the registered
callback as a task; the whole body sits in `try`/`except` that prints a
traceback and loops, so no exception ends the loop.  One iteration is a
total function of the recv result; the loop maps it over the incoming
stream. -/

/-- Lookup in the `_callbacks` dict keyed by message type: `on_cast`
assigns `self._callbacks[type] = callback`, so a later registration for
the same type wins; a non-string message type never equals a registered
string key, so it is simply absent. -/
def cbLookup (cbs : List (String × Nat)) (ty : JValue) : Option Nat :=
  match ty with
  | .str t => (cbs.reverse.find? (fun c => c.1 == t)).map (fun c => c.2)
  | _ => none

/-- What one iteration of `_recv_daemon` does with one recv result. -/
inductive RecvOutcome where
  | spawned (cb : Nat) (addr : Nat) (msg : Message)
  | droppedUnregistered (msg : Message)
  | droppedSelf (msg : Message)
  | caught (e : PyErr)
deriving Repr

/-- One iteration of `Caster._recv_daemon`: a failing `_recv` (for
example a datagram whose decode raises) is caught by the bare `except`;
an unregistered message type is dropped by the first `continue`; a
message whose source equals the channel uuid is dropped by the second
`continue`; otherwise the registered callback is spawned with the sender
address and the message. -/
def recvStep (uuid : String) (cbs : List (String × Nat))
    (r : Except PyErr (Message × Nat)) : RecvOutcome :=
  match r with
  | .error e => .caught e
  | .ok (msg, other) =>
    match cbLookup cbs msg.type with
    | none => .droppedUnregistered msg
    | some cb =>
      if msg.source == .str uuid then .droppedSelf msg
      else .spawned cb other msg

/-- The receive loop over a finite stream of recv results.  Every
element produces an outcome: the loop never terminates early. -/
def recvLoop (uuid : String) (cbs : List (String × Nat))
    (rs : List (Except PyErr (Message × Nat))) : List RecvOutcome :=
  rs.map (recvStep uuid cbs)

theorem recvStep_ok (uuid : String) (cbs : List (String × Nat))
    (msg : Message) (other : Nat) :
    recvStep uuid cbs (.ok (msg, other)) =
    match cbLookup cbs msg.type with
    | none => .droppedUnregistered msg
    | some cb =>
      if msg.source == .str uuid then .droppedSelf msg
      else .spawned cb other msg := rfl

/-- C8: the receive loop never invokes a callback for a message whose
source equals the channel's own uuid (such a message is dropped, either
as unregistered or as self), never invokes anything for an unregistered
type, treats every decode or dispatch failure as a caught exception, and
processes every element of the incoming stream (no input ends the
loop); conversely a spawn certifies a registered callback and a foreign
source. -/
theorem recv_daemon_spec :
    (∀ uuid cbs msg other, (msg.source == JValue.str uuid) = true →
      recvStep uuid cbs (.ok (msg, other)) = .droppedUnregistered msg ∨
      recvStep uuid cbs (.ok (msg, other)) = .droppedSelf msg) ∧
    (∀ uuid cbs msg other, cbLookup cbs msg.type = none →
      recvStep uuid cbs (.ok (msg, other)) = .droppedUnregistered msg) ∧
    (∀ uuid cbs e, recvStep uuid cbs (.error e) = .caught e) ∧
    (∀ uuid cbs rs, (recvLoop uuid cbs rs).length = rs.length) ∧
    (∀ uuid cbs msg other cb,
      recvStep uuid cbs (.ok (msg, other)) = .spawned cb other msg →
      cbLookup cbs msg.type = some cb ∧
        (msg.source == JValue.str uuid) = false) := by
  refine ⟨?_, ?_, ?_, ?_, ?_⟩
  · intro uuid cbs msg other h
    rcases hcb : cbLookup cbs msg.type with _ | cb
    · left
      rw [recvStep_ok, hcb]
    · right
      have h1 : recvStep uuid cbs (.ok (msg, other)) =
          (if msg.source == JValue.str uuid then RecvOutcome.droppedSelf msg
            else RecvOutcome.spawned cb other msg) := by
        rw [recvStep_ok, hcb]
      rw [h1, if_pos h]
  · intro uuid cbs msg other h
    rw [recvStep_ok, h]
  · intro uuid cbs e
    rfl
  · intro uuid cbs rs
    exact List.length_map rs _
  · intro uuid cbs msg other cb h
    rcases hcb : cbLookup cbs msg.type with _ | c
    · rw [recvStep_ok, hcb] at h
      exact absurd h (by simp)
    · rw [recvStep_ok, hcb] at h
      have h2 : (if msg.source == JValue.str uuid then
            RecvOutcome.droppedSelf msg
          else RecvOutcome.spawned c other msg) =
          RecvOutcome.spawned cb other msg := h
      by_cases hs : (msg.source == JValue.str uuid) = true
      · rw [if_pos hs] at h2
        exact absurd h2 (by simp)
      · rw [if_neg hs] at h2
        have hceq : c = cb := (RecvOutcome.spawned.inj h2).1
        subst hceq
        exact ⟨rfl, by simpa using hs⟩

/-- Concrete instances of the receive-loop law: a self-sourced message
with a registered type is dropped; an error input is caught; a foreign
message with a registered type spawns that callback, certifying the
registration and the foreign source. -/
theorem recv_daemon_spec_witness :
    (recvStep "u" [("hb", 3)]
        (.ok ({ source := .str "u", type := .str "hb", data := .null }, 9)) =
      .droppedUnregistered
        { source := .str "u", type := .str "hb", data := .null } ∨
     recvStep "u" [("hb", 3)]
        (.ok ({ source := .str "u", type := .str "hb", data := .null }, 9)) =
      .droppedSelf { source := .str "u", type := .str "hb", data := .null }) ∧
    recvStep "u" [("hb", 3)]
        (.ok ({ source := .str "v", type := .str "zz", data := .null }, 9)) =
      .droppedUnregistered
        { source := .str "v", type := .str "zz", data := .null } ∧
    (cbLookup [("hb", 3)] (.str "hb") = some 3 ∧
      ((JValue.str "v") == JValue.str "u") = false) :=
  ⟨recv_daemon_spec.1 "u" [("hb", 3)]
      { source := .str "u", type := .str "hb", data := .null } 9 rfl,
   recv_daemon_spec.2.1 "u" [("hb", 3)]
      { source := .str "v", type := .str "zz", data := .null } 9 rfl,
   recv_daemon_spec.2.2.2.2 "u" [("hb", 3)]
      { source := .str "v", type := .str "hb", data := .null } 9 3 rfl⟩

/-! ## The router's heartbeat and connection state machine

`Router._heartbeat_callback` renews or creates the peer entry for the
heartbeat's source (cancelling the old expiry task on renewal), resolves
a pending connection future for that source if one is waiting, stores
`(other[0], listen)` as the peer's endpoint, and arms a new expiry task
that fires `HEARTBEAT_EXPIRE` (one second) later; `_heartbeat_expire`
deletes the peer when it fires unrenewed.  `Router.connect(name)`
registers a future and suspends when `name` is unknown, and opens the
outbound connection from `self._peers[name]['listen']` once resumed.

The model is a state-event system with explicit time in milliseconds: a
`heartbeat` event is one callback invocation, `advance d` lets `d`
milliseconds pass and fires every armed expiry task that comes due
(cancellation is modelled by the renewal overwriting the armed
deadline), `connectRequest n` is the synchronous prefix of
`connect(n)` up to its `await`, and `connectResume n` is the suspended
remainder running after the future is resolved.  `lastHb` is a ghost
field recording the time of the last heartbeat from each name. -/

/-- `HEARTBEAT_EXPIRE` (one second), in milliseconds. -/
def hbExpireMs : Nat := 1000

/-- One entry of `Router._peers`: the `'listen'` endpoint
`(other[0], listen)` and the instant at which the armed `'expire'` task
will fire. -/
structure Peer where
  addr : Nat
  listen : Nat
  deadline : Nat
deriving Repr, DecidableEq

/-- The state of one `_pending_connections` future. -/
inductive PendStat where
  | waiting
  | resolved
deriving Repr, DecidableEq

/-- The router state touched by heartbeats and connections. -/
structure RState where
  now : Nat
  peers : String → Option Peer
  pending : String → Option PendStat
  conns : String → Option (Nat × Nat)
  lastHb : String → Option Nat

/-- A freshly constructed router: empty peer table, no pending or open
connections. -/
def initState : RState :=
  { now := 0, peers := fun _ => none, pending := fun _ => none,
    conns := fun _ => none, lastHb := fun _ => none }

/-- The events driving the state machine. -/
inductive REvent where
  | heartbeat (source : String) (addr : Nat) (listen : Nat)
  | advance (d : Nat)
  | connectRequest (n : String)
  | connectResume (n : String)

/-- One step of the router state machine, transcribing
`_heartbeat_callback`, `_heartbeat_expire` and `connect`:

* `heartbeat source addr listen`: renew or create the entry for
  `source` (renewal cancels the armed expiry; both paths end with
  `peer['listen'] = other[0], listen` and a fresh expiry armed at
  `now + HEARTBEAT_EXPIRE`), and resolve the pending future for
  `source` if and only if it is still unresolved (`if not ... done()`).
* `advance d`: `d` milliseconds pass; every armed expiry task whose
  deadline falls inside the window fires and deletes its peer.
* `connectRequest n`: `connect(n)` runs to its `await` — when `n` is
  unknown it parks a waiting future, otherwise it connects immediately
  to the known endpoint.
* `connectResume n`: the suspended `connect(n)` resumes after its
  future resolved: the future is deleted, and the outbound connection
  opens to `self._peers[n]['listen']` (when the peer meanwhile expired
  that lookup raises `KeyError` and no connection opens). -/
def hbStep (s : RState) (e : REvent) : RState :=
  match e with
  | .heartbeat source addr listen =>
    { s with
      peers := fun n =>
        if n = source then
          some { addr := addr, listen := listen,
                 deadline := s.now + hbExpireMs }
        else s.peers n,
      pending := fun n =>
        if n = source then
          match s.pending source with
          | some .waiting => some .resolved
          | x => x
        else s.pending n,
      lastHb := fun n => if n = source then some s.now else s.lastHb n }
  | .advance d =>
    { s with
      now := s.now + d,
      peers := fun n =>
        match s.peers n with
        | some p => if p.deadline ≤ s.now + d then none else some p
        | none => none }
  | .connectRequest n0 =>
    match s.peers n0 with
    | none =>
      { s with
        pending := fun n => if n = n0 then some .waiting else s.pending n }
    | some p =>
      { s with
        conns := fun n => if n = n0 then some (p.addr, p.listen) else s.conns n }
  | .connectResume n0 =>
    match s.pending n0 with
    | some .resolved =>
      { s with
        pending := fun n => if n = n0 then none else s.pending n,
        conns := fun n =>
          if n = n0 then
            match s.peers n0 with
            | some p => some (p.addr, p.listen)
            | none => s.conns n0
          else s.conns n }
    | _ => s

/-- Run the machine from the initial state over an event trace. -/
def hbRun (evs : List REvent) : RState := evs.foldl hbStep initState

/-- The inductive invariant tying the peer table to heartbeat recency: a
present peer carries the deadline armed by its last heartbeat, which is
recent; an absent peer's last heartbeat (if any) has expired. -/
def PeerInv (s : RState) : Prop :=
  ∀ n,
    (∀ p, s.peers n = some p →
      ∃ t, s.lastHb n = some t ∧ p.deadline = t + hbExpireMs ∧
        t ≤ s.now ∧ s.now < t + hbExpireMs) ∧
    (s.peers n = none → ∀ t, s.lastHb n = some t → t + hbExpireMs ≤ s.now)

/-- A waiting future exists only for a name absent from the peer table
(`connect` registers one only after finding the name absent, and any
heartbeat from the name resolves it). -/
def PendInv (s : RState) : Prop :=
  ∀ n, s.pending n = some .waiting → s.peers n = none

theorem hbExpire_pos : 0 < hbExpireMs := by decide

theorem hbStep_heartbeat_peers (s : RState) (source : String) (a l n : _) :
    (hbStep s (.heartbeat source a l)).peers n =
    if n = source then some (Peer.mk a l (s.now + hbExpireMs))
    else s.peers n := rfl

theorem hbStep_heartbeat_pending (s : RState) (source : String) (a l n : _) :
    (hbStep s (.heartbeat source a l)).pending n =
    if n = source then
      match s.pending source with
      | some .waiting => some .resolved
      | x => x
    else s.pending n := rfl

theorem hbStep_heartbeat_lastHb (s : RState) (source : String) (a l n : _) :
    (hbStep s (.heartbeat source a l)).lastHb n =
    if n = source then some s.now else s.lastHb n := rfl

theorem hbStep_heartbeat_now (s : RState) (source : String) (a l : Nat) :
    (hbStep s (.heartbeat source a l)).now = s.now := rfl

theorem hbStep_advance_peers (s : RState) (d n : _) :
    (hbStep s (.advance d)).peers n =
    match s.peers n with
    | some p => if p.deadline ≤ s.now + d then none else some p
    | none => none := rfl

theorem hbStep_advance_now (s : RState) (d : Nat) :
    (hbStep s (.advance d)).now = s.now + d := rfl

theorem hbStep_advance_lastHb (s : RState) (d : Nat) (n : String) :
    (hbStep s (.advance d)).lastHb n = s.lastHb n := rfl

theorem hbStep_advance_pending (s : RState) (d : Nat) (n : String) :
    (hbStep s (.advance d)).pending n = s.pending n := rfl

theorem hbStep_connectRequest_absent (s : RState) (n0 : String)
    (h : s.peers n0 = none) :
    hbStep s (.connectRequest n0) =
    { s with pending := fun n => if n = n0 then some .waiting
        else s.pending n } := by
  simp only [hbStep]
  rw [h]

theorem hbStep_connectRequest_present (s : RState) (n0 : String) (p : Peer)
    (h : s.peers n0 = some p) :
    hbStep s (.connectRequest n0) =
    { s with conns := fun n => if n = n0 then some (p.addr, p.listen)
        else s.conns n } := by
  simp only [hbStep]
  rw [h]

theorem hbStep_connectResume_resolved (s : RState) (n0 : String)
    (h : s.pending n0 = some .resolved) :
    hbStep s (.connectResume n0) =
    { s with
      pending := fun n => if n = n0 then none else s.pending n,
      conns := fun n =>
        if n = n0 then
          match s.peers n0 with
          | some p => some (p.addr, p.listen)
          | none => s.conns n0
        else s.conns n } := by
  simp only [hbStep]
  rw [h]

theorem hbStep_connectRequest_peers (s : RState) (n0 : String) :
    (hbStep s (.connectRequest n0)).peers = s.peers := by
  simp only [hbStep]
  rcases h : s.peers n0 with _ | p <;> rfl

theorem hbStep_connectRequest_lastHb (s : RState) (n0 : String) :
    (hbStep s (.connectRequest n0)).lastHb = s.lastHb := by
  simp only [hbStep]
  rcases h : s.peers n0 with _ | p <;> rfl

theorem hbStep_connectRequest_now (s : RState) (n0 : String) :
    (hbStep s (.connectRequest n0)).now = s.now := by
  simp only [hbStep]
  rcases h : s.peers n0 with _ | p <;> rfl

theorem hbStep_connectResume_peers (s : RState) (n0 : String) :
    (hbStep s (.connectResume n0)).peers = s.peers := by
  simp only [hbStep]
  rcases h : s.pending n0 with _ | st
  · rfl
  · cases st <;> rfl

theorem hbStep_connectResume_lastHb (s : RState) (n0 : String) :
    (hbStep s (.connectResume n0)).lastHb = s.lastHb := by
  simp only [hbStep]
  rcases h : s.pending n0 with _ | st
  · rfl
  · cases st <;> rfl

theorem hbStep_connectResume_now (s : RState) (n0 : String) :
    (hbStep s (.connectResume n0)).now = s.now := by
  simp only [hbStep]
  rcases h : s.pending n0 with _ | st
  · rfl
  · cases st <;> rfl

theorem peerInv_step (s : RState) (e : REvent) (h : PeerInv s) :
    PeerInv (hbStep s e) := by
  cases e with
  | heartbeat source a l =>
    intro n
    constructor
    · intro p hp
      rw [hbStep_heartbeat_peers] at hp
      by_cases hn : n = source
      · rw [if_pos hn] at hp
        have hpe := Option.some.inj hp
        subst hpe
        refine ⟨s.now, ?_, rfl, Nat.le_refl _, ?_⟩
        · rw [hbStep_heartbeat_lastHb, if_pos hn]
        · exact Nat.lt_add_of_pos_right hbExpire_pos
      · rw [if_neg hn] at hp
        obtain ⟨t, h1, h2, h3, h4⟩ := (h n).1 p hp
        refine ⟨t, ?_, h2, h3, h4⟩
        rw [hbStep_heartbeat_lastHb, if_neg hn]
        exact h1
    · intro hnone t hl
      rw [hbStep_heartbeat_peers] at hnone
      by_cases hn : n = source
      · rw [if_pos hn] at hnone
        exact absurd hnone (by simp)
      · rw [if_neg hn] at hnone
        rw [hbStep_heartbeat_lastHb, if_neg hn] at hl
        exact (h n).2 hnone t hl
  | advance d =>
    intro n
    constructor
    · intro p hp
      rw [hbStep_advance_peers] at hp
      rcases hsp : s.peers n with _ | q
      · rw [hsp] at hp
        exact absurd hp (by simp)
      · rw [hsp] at hp
        have hp2 : (if q.deadline ≤ s.now + d then none else some q) =
            some p := hp
        by_cases hdl : q.deadline ≤ s.now + d
        · rw [if_pos hdl] at hp2
          exact absurd hp2 (by simp)
        · rw [if_neg hdl] at hp2
          have hqp := Option.some.inj hp2
          subst hqp
          obtain ⟨t, h1, h2, h3, _⟩ := (h n).1 q hsp
          refine ⟨t, ?_, h2, ?_, ?_⟩
          · rw [hbStep_advance_lastHb]
            exact h1
          · show t ≤ s.now + d
            omega
          · show s.now + d < t + hbExpireMs
            omega
    · intro hnone t hl
      rw [hbStep_advance_peers] at hnone
      rw [hbStep_advance_lastHb] at hl
      show t + hbExpireMs ≤ s.now + d
      rcases hsp : s.peers n with _ | q
      · have := (h n).2 hsp t hl
        omega
      · rw [hsp] at hnone
        have hn2 : (if q.deadline ≤ s.now + d then none else some q) =
            none := hnone
        by_cases hdl : q.deadline ≤ s.now + d
        · obtain ⟨t2, hl2, hd2, _, _⟩ := (h n).1 q hsp
          rw [hl] at hl2
          have ht := Option.some.inj hl2
          subst ht
          omega
        · rw [if_neg hdl] at hn2
          exact absurd hn2 (by simp)
  | connectRequest n0 =>
    intro n
    constructor
    · intro p hpp
      rw [hbStep_connectRequest_peers] at hpp
      obtain ⟨t, h1, h2, h3, h4⟩ := (h n).1 p hpp
      refine ⟨t, ?_, h2, ?_, ?_⟩
      · rw [hbStep_connectRequest_lastHb]
        exact h1
      · rw [hbStep_connectRequest_now]
        exact h3
      · rw [hbStep_connectRequest_now]
        exact h4
    · intro hnone t hl
      rw [hbStep_connectRequest_peers] at hnone
      rw [hbStep_connectRequest_lastHb] at hl
      rw [hbStep_connectRequest_now]
      exact (h n).2 hnone t hl
  | connectResume n0 =>
    intro n
    constructor
    · intro p hpp
      rw [hbStep_connectResume_peers] at hpp
      obtain ⟨t, h1, h2, h3, h4⟩ := (h n).1 p hpp
      refine ⟨t, ?_, h2, ?_, ?_⟩
      · rw [hbStep_connectResume_lastHb]
        exact h1
      · rw [hbStep_connectResume_now]
        exact h3
      · rw [hbStep_connectResume_now]
        exact h4
    · intro hnone t hl
      rw [hbStep_connectResume_peers] at hnone
      rw [hbStep_connectResume_lastHb] at hl
      rw [hbStep_connectResume_now]
      exact (h n).2 hnone t hl

theorem pendInv_step (s : RState) (e : REvent) (h : PendInv s) :
    PendInv (hbStep s e) := by
  cases e with
  | heartbeat source a l =>
    intro n hw
    rw [hbStep_heartbeat_pending] at hw
    rw [hbStep_heartbeat_peers]
    by_cases hn : n = source
    · rw [if_pos hn] at hw
      exfalso
      rcases hps : s.pending source with _ | st
      · rw [hps] at hw
        exact absurd hw (by simp)
      · rw [hps] at hw
        cases st
        · exact absurd hw (by simp)
        · exact absurd hw (by simp)
    · rw [if_neg hn] at hw
      rw [if_neg hn]
      exact h n hw
  | advance d =>
    intro n hw
    rw [hbStep_advance_pending] at hw
    rw [hbStep_advance_peers, h n hw]
  | connectRequest n0 =>
    intro n hw
    rcases hps : s.peers n0 with _ | p
    · rw [hbStep_connectRequest_absent s n0 hps] at hw ⊢
      by_cases hn : n = n0
      · subst hn
        exact hps
      · have hw2 : (if n = n0 then some PendStat.waiting
            else s.pending n) = some .waiting := hw
        rw [if_neg hn] at hw2
        exact h n hw2
    · rw [hbStep_connectRequest_present s n0 p hps] at hw ⊢
      exact h n hw
  | connectResume n0 =>
    intro n hw
    rcases hps : s.pending n0 with _ | st
    · have he : hbStep s (.connectResume n0) = s := by
        simp only [hbStep]
        rw [hps]
      rw [he] at hw ⊢
      exact h n hw
    · cases st
      · have he : hbStep s (.connectResume n0) = s := by
          simp only [hbStep]
          rw [hps]
        rw [he] at hw ⊢
        exact h n hw
      · rw [hbStep_connectResume_resolved s n0 hps] at hw ⊢
        by_cases hn : n = n0
        · subst hn
          have hw2 : (if n = n then none else s.pending n) =
              some PendStat.waiting := hw
          rw [if_pos rfl] at hw2
          exact absurd hw2 (by simp)
        · have hw2 : (if n = n0 then none else s.pending n) =
              some PendStat.waiting := hw
          rw [if_neg hn] at hw2
          exact h n hw2

theorem peerInv_init : PeerInv initState := by
  intro n
  constructor
  · intro p hp
    exact absurd hp (by simp [initState])
  · intro _ t hl
    exact absurd hl (by simp [initState])

theorem pendInv_init : PendInv initState := fun _ _ => rfl

theorem hbInv_run_aux (evs : List REvent) : ∀ s, PeerInv s → PendInv s →
    PeerInv (evs.foldl hbStep s) ∧ PendInv (evs.foldl hbStep s) := by
  induction evs with
  | nil => exact fun s h1 h2 => ⟨h1, h2⟩
  | cons e evs ih =>
    intro s h1 h2
    exact ih (hbStep s e) (peerInv_step s e h1) (pendInv_step s e h2)

theorem hbRun_inv (evs : List REvent) :
    PeerInv (hbRun evs) ∧ PendInv (hbRun evs) :=
  hbInv_run_aux evs initState peerInv_init pendInv_init

/-- C4: over every event trace, a name is present in the peer table if
and only if a heartbeat from it arrived within the last
`HEARTBEAT_EXPIRE` window; any heartbeat (first or renewal) installs the
entry with the sender's address and advertised listen port and arms the
expiry `HEARTBEAT_EXPIRE` after the current instant (a renewal cancels
the previous expiry by overwriting it — the Alive self-loop); letting
time pass removes exactly the peers whose armed expiry comes due; and
the fake-clock scenarios hold: present before expiry, gone after expiry
without renewal, still present after the original expiry instant when
one renewal happened in between. -/
theorem heartbeat_peer_invariant :
    (∀ evs n, ((hbRun evs).peers n).isSome = true ↔
      ∃ t, (hbRun evs).lastHb n = some t ∧
        (hbRun evs).now < t + hbExpireMs) ∧
    (∀ s src a l, (hbStep s (.heartbeat src a l)).peers src =
      some (Peer.mk a l (s.now + hbExpireMs))) ∧
    (∀ s d n, (hbStep s (.advance d)).peers n =
      match s.peers n with
      | some p => if p.deadline ≤ s.now + d then none else some p
      | none => none) ∧
    ((hbRun [.heartbeat "a" 5 7, .advance 500]).peers "a").isSome = true ∧
    ((hbRun [.heartbeat "a" 5 7, .advance 1500]).peers "a").isSome = false ∧
    ((hbRun [.heartbeat "a" 5 7, .advance 500, .heartbeat "a" 5 7,
      .advance 700]).peers "a").isSome = true := by
  refine ⟨?_, ?_, ?_, rfl, rfl, rfl⟩
  · intro evs n
    obtain ⟨hPeer, _⟩ := hbRun_inv evs
    constructor
    · intro hsome
      rcases hx : (hbRun evs).peers n with _ | p
      · rw [hx] at hsome
        exact absurd hsome (by simp)
      · obtain ⟨t, h1, _, _, h4⟩ := (hPeer n).1 p hx
        exact ⟨t, h1, h4⟩
    · rintro ⟨t, hl, hlt⟩
      rcases hx : (hbRun evs).peers n with _ | p
      · exfalso
        have := (hPeer n).2 hx t hl
        omega
      · rfl
  · intro s src a l
    rw [hbStep_heartbeat_peers, if_pos rfl]
  · intro s d n
    exact hbStep_advance_peers s d n

/-- C5: `connect(name)` finding `name` absent parks a waiting future
(and opens nothing yet); a heartbeat from `name` resolves a waiting
future and only a waiting one (an already-resolved future is left
untouched, so resolution happens at most once); the resumed `connect`
deletes the pending entry and opens the outbound connection to the
peer's recorded endpoint; over every trace a waiting future exists only
while the name is absent from the peer table — so the resolving
heartbeat is the one creating the peer record; and the full
register/heartbeat/resume exchange connects to exactly the address and
listen port carried by the heartbeat. -/
theorem pending_connection_spec :
    (∀ s n, s.peers n = none →
      (hbStep s (.connectRequest n)).pending n = some .waiting ∧
      (hbStep s (.connectRequest n)).conns n = s.conns n) ∧
    (∀ s src a l, (hbStep s (.heartbeat src a l)).pending src =
      match s.pending src with
      | some .waiting => some .resolved
      | x => x) ∧
    (∀ s n p, s.pending n = some .resolved → s.peers n = some p →
      (hbStep s (.connectResume n)).pending n = none ∧
      (hbStep s (.connectResume n)).conns n = some (p.addr, p.listen)) ∧
    (∀ evs n, (hbRun evs).pending n = some .waiting →
      (hbRun evs).peers n = none) ∧
    (∀ n a l,
      (hbRun [.connectRequest n, .heartbeat n a l,
        .connectResume n]).conns n = some (a, l) ∧
      (hbRun [.connectRequest n, .heartbeat n a l,
        .connectResume n]).pending n = none) := by
  refine ⟨?_, ?_, ?_, ?_, ?_⟩
  · intro s n h
    rw [hbStep_connectRequest_absent s n h]
    refine ⟨?_, rfl⟩
    show (if n = n then some PendStat.waiting else s.pending n) =
      some PendStat.waiting
    rw [if_pos rfl]
  · intro s src a l
    rw [hbStep_heartbeat_pending, if_pos rfl]
  · intro s n p h1 h2
    rw [hbStep_connectResume_resolved s n h1]
    refine ⟨?_, ?_⟩
    · show (if n = n then none else s.pending n) = none
      rw [if_pos rfl]
    · show (if n = n then
          match s.peers n with
          | some p => some (p.addr, p.listen)
          | none => s.conns n
        else s.conns n) = some (p.addr, p.listen)
      rw [if_pos rfl, h2]
  · exact fun evs n => (hbRun_inv evs).2 n
  · intro n a l
    simp [hbRun, hbStep, initState]

/-- Concrete instances of the pending-connection law: from the initial
state, `connect("a")` parks a waiting future without touching the
connections; after that registration and a heartbeat from `"a"`, the
resumed `connect` deletes the pending entry and connects to the
heartbeat's endpoint; and while the future is waiting, `"a"` is absent
from the peer table. -/
theorem pending_connection_spec_witness :
    ((hbStep initState (.connectRequest "a")).pending "a" =
        some PendStat.waiting ∧
      (hbStep initState (.connectRequest "a")).conns "a" =
        initState.conns "a") ∧
    ((hbStep (hbRun [.connectRequest "a", .heartbeat "a" 5 7])
        (.connectResume "a")).pending "a" = none ∧
      (hbStep (hbRun [.connectRequest "a", .heartbeat "a" 5 7])
        (.connectResume "a")).conns "a" = some (5, 7)) ∧
    (hbRun [.connectRequest "a"]).peers "a" = none :=
  ⟨pending_connection_spec.1 initState "a" rfl,
   pending_connection_spec.2.2.1
     (hbRun [.connectRequest "a", .heartbeat "a" 5 7]) "a"
     (Peer.mk 5 7 1000) rfl rfl,
   pending_connection_spec.2.2.2.1 [.connectRequest "a"] "a" rfl⟩

end Robocluster
